import Mathlib

/-!
Verification of the schema synchronization and record mapping engine:
schema diff, change application, value hydration/dehydration, upsert-filter
building and formula-expression restoration. Definitions are shallow
embeddings of the TypeScript sources under `packages/core/src/utils`;
JavaScript objects are modelled as association lists (`List (String × _)`),
`undefined` as `Option.none` or an explicit constructor, and JS `Map`
lookups (last `set` wins) as `reverse.find?`.
-/

namespace Unbook

/-- Discriminator of a schema field (the TS `type` tag of `Schema.Field`). -/
inductive FieldType where
  | title
  | rich_text
  | number
  | select
  | multi_select
  | status
  | date
  | people
  | files
  | checkbox
  | url
  | email
  | phone_number
  | formula
  | relation
  | rollup
  | created_time
  | created_by
  | last_edited_time
  | last_edited_by
  | unique_id
deriving DecidableEq, Repr

/-- One select option value: either a bare display-name string or a
`{label?, color?}` record (`Schema.SelectOptionObject`). -/
inductive SelectOptionValue where
  | str (s : String)
  | obj (label : Option String) (color : Option String)
deriving DecidableEq, Repr

/-- A select-option vocabulary (`Schema.SelectOptions`): either an ordered
list of bare names, or a record mapping local keys to option values. -/
inductive SelectOptions where
  | arr (names : List String)
  | record (entries : List (String × SelectOptionValue))
deriving DecidableEq, Repr

/-- A status group (`Schema.StatusGroup`): labeled, colored option set. -/
structure StatusGroup where
  label : String
  color : String
  options : SelectOptions
deriving DecidableEq, Repr

/-- A schema field (`Schema.Field`). The TS type is a tagged union; here it
is flattened to one structure whose per-type extras are `Option`-valued.
`prefix_` renders the TS `prefix` field of `unique_id` fields. -/
structure Field where
  label : String
  type : FieldType
  id : Option String := none
  options : Option SelectOptions := none
  groups : Option (List (String × StatusGroup)) := none
  expression : Option String := none
  format : Option String := none
  prefix_ : Option String := none
  data_source_id : Option String := none
  relation_type : Option String := none
  synced_property_id : Option String := none
  synced_property_name : Option String := none
  relation_property : Option String := none
  rollup_property : Option String := none
  function : Option String := none
deriving DecidableEq, Repr

/-- A schema definition (`Schema.Definition`): an ordered mapping from local
key to field, modelled as an association list in object-iteration order. -/
abbrev Schema := List (String × Field)

/-- A schema diff entry (`Schema.Diff`). The optional `id`/`fromKey` of
`Modified` are modelled as `Option` arguments. -/
inductive Diff where
  | added (key : String) (field : Field)
  | removed (key : String) (field : Field)
  | modified (key : String) (fromF toF : Field) (changes : List String)
      (id : Option String) (fromKey : Option String)
deriving DecidableEq, Repr

/-- The singleton types of `diffSchema` (`SINGLETON_TYPES`, only `title`). -/
def SINGLETON_TYPES : List FieldType := [.title]

/-- JS truthiness of an optional string: `some ""` and `none` are falsy. -/
def jsTruthyStrOpt (o : Option String) : Option String :=
  match o with
  | some s => if s = "" then none else some s
  | none => none

/-- The `fromById` lookup map of `diffSchema`. A JS `Map` keeps the last
`set` value per key, hence lookup on the reversed entry list. Only fields
with a truthy `id` are inserted; the map is consulted only with nonempty
ids, so the plain id test is equivalent. -/
def fromById (fromSchema : Schema) (i : String) : Option (String × Field) :=
  fromSchema.reverse.find? (fun kf => kf.2.id == some i)

/-- The `fromByKey` lookup map of `diffSchema`. -/
def fromByKey (fromSchema : Schema) (k : String) : Option Field :=
  (fromSchema.reverse.find? (fun kf => kf.1 == k)).map (fun kf => kf.2)

/-- The `fromByLabel` lookup map of `diffSchema`. -/
def fromByLabel (fromSchema : Schema) (l : String) : Option (String × Field) :=
  fromSchema.reverse.find? (fun kf => kf.2.label == l)

/-- The `fromByType` lookup map of `diffSchema` (singleton types only; it is
consulted only for singleton types, so the plain type test is equivalent). -/
def fromByType (fromSchema : Schema) (t : FieldType) : Option (String × Field) :=
  fromSchema.reverse.find? (fun kf => kf.2.type == t)

/-- Priority 1 of `findMatch`: match by id. The `if (toField.id)` truthiness
guard skips empty ids. -/
def matchById (fromSchema : Schema) (consumed : List String) (toField : Field) :
    Option (String × Field) :=
  match toField.id with
  | some i =>
    if i = "" then none
    else
      match fromById fromSchema i with
      | some m => if m.1 ∈ consumed then none else some m
      | none => none
  | none => none

/-- Priority 2 of `findMatch`: match by local key. -/
def matchByKey (fromSchema : Schema) (consumed : List String) (toKey : String) :
    Option (String × Field) :=
  match fromByKey fromSchema toKey with
  | some f => if toKey ∈ consumed then none else some (toKey, f)
  | none => none

/-- Priority 3 of `findMatch`: match by label. -/
def matchByLabel (fromSchema : Schema) (consumed : List String) (toField : Field) :
    Option (String × Field) :=
  match fromByLabel fromSchema toField.label with
  | some m => if m.1 ∈ consumed then none else some m
  | none => none

/-- Priority 4 of `findMatch`: match by singleton type. -/
def matchByType (fromSchema : Schema) (consumed : List String) (toField : Field) :
    Option (String × Field) :=
  if toField.type ∈ SINGLETON_TYPES then
    match fromByType fromSchema toField.type with
    | some m => if m.1 ∈ consumed then none else some m
    | none => none
  else none

/-- The `findMatch` helper of `diffSchema`: priority-ordered matching of a
`to` field against the unconsumed `from` fields. -/
def findMatch (fromSchema : Schema) (consumed : List String) (toKey : String)
    (toField : Field) : Option (String × Field) :=
  matchById fromSchema consumed toField <|>
  matchByKey fromSchema consumed toKey <|>
  matchByLabel fromSchema consumed toField <|>
  matchByType fromSchema consumed toField

/-- The `changes` computation of `diffSchema`: differing dimensions among
key, label and type, pushed in that order. -/
def computeChanges (fromKey toKey : String) (fromF toF : Field) : List String :=
  (if fromKey ≠ toKey then ["key"] else []) ++
  (if fromF.label ≠ toF.label then ["label"] else []) ++
  (if fromF.type ≠ toF.type then ["type"] else [])

/-- The per-`to`-field loop of `diffSchema`, parametrized by the matcher so
that the implementation matcher and a literal-specification matcher can be
compared. Returns the added/modified diffs in order together with the set of
consumed `from` keys (`processedFromKeys`). -/
def diffGoWith (matcher : List String → String → Field → Option (String × Field)) :
    List (String × Field) → List String → List Diff × List String
  | [], consumed => ([], consumed)
  | (toKey, toField) :: rest, consumed =>
    match matcher consumed toKey toField with
    | none =>
      let r := diffGoWith matcher rest consumed
      (.added toKey toField :: r.1, r.2)
    | some (fromKey, fromF) =>
      let consumed2 := consumed ++ [fromKey]
      let changes := computeChanges fromKey toKey fromF toField
      let r := diffGoWith matcher rest consumed2
      if changes = [] then r
      else
        (.modified toKey fromF toField changes
          (jsTruthyStrOpt fromF.id)
          (if fromKey ≠ toKey then some fromKey else none) :: r.1, r.2)

/-- `diffSchema(from, to)`: priority-matched added/modified diffs in `to`
iteration order, followed by a `removed` diff for every unconsumed `from`
field in `from` iteration order. -/
def diffSchema (fromSchema toSchema : Schema) : List Diff :=
  (diffGoWith (findMatch fromSchema) toSchema []).1 ++
    (fromSchema.filter
      (fun kf => kf.1 ∉ (diffGoWith (findMatch fromSchema) toSchema []).2)).map
      (fun kf => .removed kf.1 kf.2)

/-- Literal-specification matcher: priority order as the spec words it, each
priority scanning all (not just the latest-inserted) unconsumed `from`
fields for the attribute, in `from` iteration order. -/
def specFindMatch (fromSchema : Schema) (consumed : List String) (toKey : String)
    (toField : Field) : Option (String × Field) :=
  (match toField.id with
   | some i =>
     if i = "" then none
     else fromSchema.find? (fun kf => kf.2.id == some i && !consumed.contains kf.1)
   | none => none) <|>
  fromSchema.find? (fun kf => kf.1 == toKey && !consumed.contains kf.1) <|>
  fromSchema.find? (fun kf => kf.2.label == toField.label && !consumed.contains kf.1) <|>
  (if toField.type ∈ SINGLETON_TYPES then
    fromSchema.find? (fun kf => kf.2.type == toField.type && !consumed.contains kf.1)
  else none)

/-- Literal-specification diff: the matching algorithm exactly as the spec
states it, with `specFindMatch` in place of the map-based `findMatch`. -/
def specDiffSchema (fromSchema toSchema : Schema) : List Diff :=
  (diffGoWith (specFindMatch fromSchema) toSchema []).1 ++
    (fromSchema.filter
      (fun kf => kf.1 ∉ (diffGoWith (specFindMatch fromSchema) toSchema []).2)).map
      (fun kf => .removed kf.1 kf.2)

/-- The local keys of a schema, in order. -/
def schemaKeys (s : Schema) : List String := s.map (fun kf => kf.1)

/-- The nonempty ids carried by a schema's fields, in order. -/
def schemaIds (s : Schema) : List String := s.filterMap (fun kf => kf.2.id)

example :
    diffSchema [("name", { label := "Name", type := .title })]
      [("name", { label := "Name", type := .title }),
       ("description", { label := "Description", type := .rich_text })] =
    [.added "description" { label := "Description", type := .rich_text }] := by
  decide

/-- One serialized select option (`Property.SelectOption`): `{id, name, color}`,
with empty `id` since the remote side assigns it. -/
structure SelectOptionDef where
  id : String
  name : String
  color : String
deriving DecidableEq, Repr

/-- The per-type body of a remote property definition
(`Property.DefinitionInput` minus the shared `type`/`id`/`name` parts). -/
inductive DefBody where
  | emptyBody
  | selectBody (options : List SelectOptionDef)
  | multiSelectBody (options : List SelectOptionDef)
  | statusBody
  | formulaBody (expression : Option String)
  | numberBody (format : String)
  | uniqueIdBody (prefix_ : Option String)
  | relationSingleBody (data_source_id : Option String)
  | relationDualBody (data_source_id : Option String)
      (synced_property_id : Option String) (synced_property_name : Option String)
  | rollupBody (relation_property_name : Option String)
      (rollup_property_name : Option String) (function : Option String)
deriving DecidableEq, Repr

/-- A remote property definition payload (`Property.DefinitionInput`), with
the mutable `id` and `name` slots that `applySchemaChanges` may set. -/
structure PropDef where
  type : FieldType
  id : Option String := none
  name : Option String := none
  body : DefBody
deriving DecidableEq, Repr

/-- `toSelectOptions`: expand a select vocabulary into `{id:"", name, color}`
triples (bare list → identity names; record → label/color resolution). -/
def toSelectOptions (selectOptions : Option SelectOptions) : List SelectOptionDef :=
  match selectOptions with
  | none => []
  | some (.arr names) => names.map (fun n => ⟨"", n, "default"⟩)
  | some (.record entries) =>
    entries.map (fun kv =>
      match kv.2 with
      | .str s => ⟨"", s, "default"⟩
      | .obj lbl color => ⟨"", lbl.getD kv.1, color.getD "default"⟩)

/-- `toPropertyDefinition(field)`: per-type structural conversion of a field
definition into a remote property definition. The TS function initializes
`id` with `field.id ?? undefined`. -/
def toPropertyDefinition (field : Field) : PropDef :=
  match field.type with
  | .title => { type := .title, id := field.id, body := .emptyBody }
  | .rich_text => { type := .rich_text, id := field.id, body := .emptyBody }
  | .date => { type := .date, id := field.id, body := .emptyBody }
  | .people => { type := .people, id := field.id, body := .emptyBody }
  | .files => { type := .files, id := field.id, body := .emptyBody }
  | .checkbox => { type := .checkbox, id := field.id, body := .emptyBody }
  | .url => { type := .url, id := field.id, body := .emptyBody }
  | .email => { type := .email, id := field.id, body := .emptyBody }
  | .phone_number => { type := .phone_number, id := field.id, body := .emptyBody }
  | .created_time => { type := .created_time, id := field.id, body := .emptyBody }
  | .created_by => { type := .created_by, id := field.id, body := .emptyBody }
  | .last_edited_time => { type := .last_edited_time, id := field.id, body := .emptyBody }
  | .last_edited_by => { type := .last_edited_by, id := field.id, body := .emptyBody }
  | .select =>
    { type := .select, id := field.id, body := .selectBody (toSelectOptions field.options) }
  | .multi_select =>
    { type := .multi_select, id := field.id,
      body := .multiSelectBody (toSelectOptions field.options) }
  | .status => { type := .status, id := field.id, body := .statusBody }
  | .formula =>
    { type := .formula, id := field.id, body := .formulaBody field.expression }
  | .number =>
    { type := .number, id := field.id, body := .numberBody (field.format.getD "number") }
  | .unique_id =>
    { type := .unique_id, id := field.id, body := .uniqueIdBody field.prefix_ }
  | .relation =>
    if field.relation_type = some "dual_property" then
      { type := .relation, id := field.id,
        body := .relationDualBody field.data_source_id
          field.synced_property_id field.synced_property_name }
    else
      { type := .relation, id := field.id,
        body := .relationSingleBody field.data_source_id }
  | .rollup =>
    { type := .rollup, id := field.id,
      body := .rollupBody field.relation_property field.rollup_property field.function }

/-- JS object property assignment `m[k] = v`: update in place if the key
exists (keeping its position), else append. -/
def jsSet {α : Type} (m : List (String × α)) (k : String) (v : α) : List (String × α) :=
  if m.any (fun p => p.1 == k) then
    m.map (fun p => if p.1 = k then (k, v) else p)
  else m ++ [(k, v)]

/-- Conflict resolution strategy of `applySchemaChanges`. -/
inductive ConflictStrategy where
  | merge
  | overwrite
  | strict
deriving DecidableEq, Repr

/-- Whether a diff is an `added` entry. -/
def Diff.isAdded : Diff → Bool
  | .added _ _ => true
  | _ => false

/-- Whether a diff is a `removed` entry. -/
def Diff.isRemoved : Diff → Bool
  | .removed _ _ => true
  | _ => false

/-- Whether a diff is a `modified` entry. -/
def Diff.isModified : Diff → Bool
  | .modified _ _ _ _ _ _ => true
  | _ => false

/-- The `key` of a diff. -/
def Diff.key : Diff → String
  | .added k _ => k
  | .removed k _ => k
  | .modified k _ _ _ _ _ => k

/-- Process one `added` diff: `result[field.label] = toPropertyDefinition(field)`
when the key resolves in the local schema. -/
def applyAdded (localSchema : Schema) (result : List (String × Option PropDef)) :
    Diff → List (String × Option PropDef)
  | .added key _ =>
    match localSchema.lookup key with
    | some field => jsSet result field.label (some (toPropertyDefinition field))
    | none => result
  | _ => result

/-- Process one `modified` diff: build the definition, set the matched id
(`diff.id ?? diff.from.id`, skipped when falsy), and key the entry by the old
label on a label rename (carrying the new label in `name`), else by the
current label. -/
def applyModified (localSchema : Schema) (result : List (String × Option PropDef)) :
    Diff → List (String × Option PropDef)
  | .modified key fromF _ changes diffId _ =>
    match localSchema.lookup key with
    | none => result
    | some field =>
      let definition := toPropertyDefinition field
      let idOpt : Option String :=
        match diffId with
        | some x => some x
        | none => fromF.id
      let definition :=
        match idOpt with
        | some i => if i = "" then definition else { definition with id := some i }
        | none => definition
      if changes.contains "label" then
        jsSet result fromF.label (some { definition with name := some field.label })
      else
        jsSet result field.label (some definition)
  | _ => result

/-- The result map of `applySchemaChanges` after the added and modified
passes (the state of `result` when the removed pass begins). -/
def baseResult (localSchema : Schema) (diffs : List Diff) :
    List (String × Option PropDef) :=
  (diffs.filter Diff.isModified).foldl (applyModified localSchema)
    ((diffs.filter Diff.isAdded).foldl (applyAdded localSchema) [])

/-- The `overwrite` removed pass: `result[field.label] = null` per removed
diff. -/
def removedFold (result : List (String × Option PropDef)) (removed : List Diff) :
    List (String × Option PropDef) :=
  removed.foldl (fun r d =>
    match d with
    | .removed _ field => jsSet r field.label none
    | _ => r) result

/-- `applySchemaChanges(localSchema, diffs, strategy)`: added fields emit
full definitions, modified fields emit updated definitions, removed fields
raise under `strict`, emit `null` under `overwrite`, and are ignored under
`merge`. Raising is modelled by `Except.error` carrying the message. -/
def applySchemaChanges (localSchema : Schema) (diffs : List Diff)
    (strategy : ConflictStrategy := .merge) :
    Except String (List (String × Option PropDef)) :=
  if (diffs.filter Diff.isRemoved).length > 0 then
    match strategy with
    | .strict =>
      if ((diffs.filter Diff.isRemoved).map Diff.key).length > 0 then
        .error ("Unrecognized remote fields: "
          ++ String.intercalate ", " ((diffs.filter Diff.isRemoved).map Diff.key))
      else .ok (baseResult localSchema diffs)
    | .overwrite =>
      .ok (removedFold (baseResult localSchema diffs) (diffs.filter Diff.isRemoved))
    | .merge => .ok (baseResult localSchema diffs)
  else .ok (baseResult localSchema diffs)

example :
    applySchemaChanges [] [.removed "foo" { label := "Foo", type := .rich_text },
      .removed "bar" { label := "Bar", type := .rich_text }] .strict =
    .error "Unrecognized remote fields: foo, bar" := by
  rfl

example :
    applySchemaChanges [("name", { label := "New Name", type := .title, id := some "abc" })]
      [.modified "name" { label := "Old Name", type := .title, id := some "abc" }
        { label := "New Name", type := .title, id := some "abc" } ["label"] none none]
      .merge =
    .ok [("Old Name",
      some { type := .title, id := some "abc", name := some "New Name", body := .emptyBody })] := by
  rfl

/-- One rich-text span; only the parts the codec reads or writes are kept:
the rendered `plain_text` and the source `text.content`. -/
structure RichTextItem where
  plain_text : String
  content : String
deriving DecidableEq, Repr

/-- A date property payload `{start, end?}`; the optional/nullable `end` is
flattened into one `Option`. `endv` renders the TS `end` field. -/
structure DateValue where
  start : String
  endv : Option String := none
deriving DecidableEq, Repr

/-- A file object: externally hosted or platform hosted, each carrying a URL. -/
inductive FileObject where
  | externalFile (url : String)
  | hostedFile (url : String)
deriving DecidableEq, Repr

/-- `getFileObjectUrl`: extract the URL from a file object. -/
def getFileObjectUrl : FileObject → String
  | .externalFile url => url
  | .hostedFile url => url

/-- A formula result: tagged string/number/boolean/date, each nullable. -/
inductive FormulaValue where
  | fstring (s : Option String)
  | fnumber (n : Option Int)
  | fboolean (b : Option Bool)
  | fdate (d : Option DateValue)
deriving DecidableEq, Repr

mutual

/-- A rollup result: number, date, an array of raw property values, or one of
the remaining tags the code leaves unhandled (`rother`). -/
inductive RollupValue where
  | rnumber (n : Option Int)
  | rdate (d : Option DateValue)
  | rarray (values : List PropValue)
  | rother

/-- A remote property value (`Property.Value`), tagged by type. Numbers are
modelled as `Int` (no claim exercises non-integer arithmetic); select/status
payloads keep only the option `name`, the sole part the codec reads. -/
inductive PropValue where
  | title (spans : List RichTextItem)
  | rich_text (spans : List RichTextItem)
  | number (n : Option Int)
  | select (name : Option String)
  | multi_select (names : List String)
  | status (name : Option String)
  | date (d : Option DateValue)
  | checkbox (b : Bool)
  | url (s : Option String)
  | email (s : Option String)
  | phone_number (s : Option String)
  | relation (ids : List String) (has_more : Bool)
  | people (ids : List String)
  | files (fs : List FileObject)
  | formula (f : FormulaValue)
  | rollup (r : RollupValue)
  | created_time (s : String)
  | last_edited_time (s : String)
  | created_by (id : String)
  | last_edited_by (id : String)
  | unique_id (prefix_ : Option String) (num : Int)

end

/-- A raw value extracted from a rollup-array element (`extractRawValue`
result): loosely typed, distinguishing JS `null` payloads (`Option`s) from
`undefined` (`rUndefined`). -/
inductive Raw where
  | rStr (s : String)
  | rNumOpt (n : Option Int)
  | rStrOpt (s : Option String)
  | rDateOpt (d : Option DateValue)
  | rBool (b : Bool)
  | rStrList (l : List String)
  | rUndefined
deriving DecidableEq, Repr

/-- A local (hydrated) value, i.e. the `unknown` side of the codec. JS
`undefined` and `null` are distinct constructors; JS arrays of strings are
`vStrList`; a structured rich-text input is `vRich`; `vUrl` models a `URL`
instance; `vRawList` hosts hydrated rollup arrays. -/
inductive Value where
  | vStr (s : String)
  | vNum (n : Int)
  | vBool (b : Bool)
  | vNull
  | vUndefined
  | vStrList (ss : List String)
  | vRich (spans : List RichTextItem)
  | vDate (d : DateValue)
  | vUrl (href : String)
  | vRawList (rs : List Raw)
deriving DecidableEq, Repr

/-- JS truthiness of a local value (`!value` negated). Objects and arrays
are truthy; `""`, `0`, `false`, `null` and `undefined` are falsy. -/
def jsFalsy : Value → Bool
  | .vStr s => s = ""
  | .vNum n => n = 0
  | .vBool b => !b
  | .vNull => true
  | .vUndefined => true
  | _ => false

/-- Lookup in a JS `Map` represented as its `set`-call list: the last `set`
for a key wins. -/
def mapGet (m : List (String × String)) (k : String) : Option String :=
  (m.reverse.find? (fun p => p.1 == k)).map (fun p => p.2)

/-- Display name of one vocabulary entry: a bare string is the name; a
record value uses its `label`, defaulting to the local key. -/
def optionEntryName (key : String) (v : SelectOptionValue) : String :=
  match v with
  | .str s => s
  | .obj lbl _ => lbl.getD key

/-- `buildNameToKeyMap`: name → local key entries of a select vocabulary. -/
def buildNameToKeyMap (options : Option SelectOptions) : List (String × String) :=
  match options with
  | none => []
  | some (.arr names) => names.map (fun n => (n, n))
  | some (.record entries) => entries.map (fun kv => (optionEntryName kv.1 kv.2, kv.1))

/-- `buildKeyToNameMap`: local key → name entries of a select vocabulary. -/
def buildKeyToNameMap (options : Option SelectOptions) : List (String × String) :=
  match options with
  | none => []
  | some (.arr names) => names.map (fun n => (n, n))
  | some (.record entries) => entries.map (fun kv => (kv.1, optionEntryName kv.1 kv.2))

/-- `buildStatusNameToKeyMap`: name → key entries flattened over all groups. -/
def buildStatusNameToKeyMap (groups : Option (List (String × StatusGroup))) :
    List (String × String) :=
  match groups with
  | none => []
  | some gs => gs.flatMap (fun g => buildNameToKeyMap (some g.2.options))

/-- `buildStatusKeyToNameMap`: key → name entries flattened over all groups. -/
def buildStatusKeyToNameMap (groups : Option (List (String × StatusGroup))) :
    List (String × String) :=
  match groups with
  | none => []
  | some gs => gs.flatMap (fun g => buildKeyToNameMap (some g.2.options))

/-- Concatenation of the plain-text segments of a span list, no separator. -/
def joinPlainText (spans : List RichTextItem) : String :=
  String.join (spans.map (fun t => t.plain_text))

/-- Formatting of a `unique_id` value: `prefix + "-" + number` when the
prefix is truthy, else the bare number as a string. -/
def formatUniqueId (prefix_ : Option String) (num : Int) : String :=
  match prefix_ with
  | some p => if p = "" then toString num else p ++ "-" ++ toString num
  | none => toString num

/-- `extractRawValue`: raw value of a property without schema lookups, used
for rollup-array elements. Formula, rollup and files fall through to the
trailing `undefined`. -/
def extractRawValue : PropValue → Raw
  | .title spans => .rStr (joinPlainText spans)
  | .rich_text spans => .rStr (joinPlainText spans)
  | .number n => .rNumOpt n
  | .select name =>
    match name with
    | some s => .rStr s
    | none => .rUndefined
  | .multi_select names => .rStrList names
  | .status name =>
    match name with
    | some s => .rStr s
    | none => .rUndefined
  | .date d => .rDateOpt d
  | .checkbox b => .rBool b
  | .url s => .rStrOpt s
  | .email s => .rStrOpt s
  | .phone_number s => .rStrOpt s
  | .created_time s => .rStr s
  | .last_edited_time s => .rStr s
  | .relation ids _ => .rStrList ids
  | .people ids => .rStrList ids
  | .created_by i => .rStr i
  | .last_edited_by i => .rStr i
  | .unique_id p n => .rStr (formatUniqueId p n)
  | .files _ => .rUndefined
  | .formula _ => .rUndefined
  | .rollup _ => .rUndefined

/-- `hydrateValue(property, field)`: extract the local value of one remote
property value, reverse-mapping option names to local keys on select,
multi-select and status fields. JS `undefined` results are `vUndefined`. -/
def hydrateValue (property : PropValue) (field : Field) : Value :=
  match property with
  | .title spans => .vStr (joinPlainText spans)
  | .rich_text spans => .vStr (joinPlainText spans)
  | .number n =>
    match n with
    | some k => .vNum k
    | none => .vNull
  | .select sel =>
    match sel with
    | none => .vUndefined
    | some name =>
      if name = "" then .vUndefined
      else if field.type = .select then
        match field.options with
        | some opts => .vStr ((mapGet (buildNameToKeyMap (some opts)) name).getD name)
        | none => .vStr name
      else .vStr name
  | .multi_select names =>
    if field.type = .multi_select then
      match field.options with
      | some opts =>
        .vStrList (names.map (fun n => (mapGet (buildNameToKeyMap (some opts)) n).getD n))
      | none => .vStrList names
    else .vStrList names
  | .status sel =>
    match sel with
    | none => .vUndefined
    | some name =>
      if name = "" then .vUndefined
      else if field.type = .status then
        match field.groups with
        | some gs => .vStr ((mapGet (buildStatusNameToKeyMap (some gs)) name).getD name)
        | none => .vStr name
      else .vStr name
  | .date d =>
    match d with
    | some dv => .vDate dv
    | none => .vNull
  | .checkbox b => .vBool b
  | .url s =>
    match s with
    | some x => .vStr x
    | none => .vNull
  | .email s =>
    match s with
    | some x => .vStr x
    | none => .vNull
  | .phone_number s =>
    match s with
    | some x => .vStr x
    | none => .vNull
  | .created_time s => .vStr s
  | .last_edited_time s => .vStr s
  | .relation ids _ => .vStrList ids
  | .people ids => .vStrList ids
  | .files fs => .vStrList (fs.map getFileObjectUrl)
  | .formula f =>
    match f with
    | .fstring (some s) => .vStr s
    | .fstring none => .vNull
    | .fnumber (some n) => .vNum n
    | .fnumber none => .vNull
    | .fboolean (some b) => .vBool b
    | .fboolean none => .vNull
    | .fdate (some d) => .vDate d
    | .fdate none => .vNull
  | .rollup r =>
    match r with
    | .rnumber (some n) => .vNum n
    | .rnumber none => .vNull
    | .rdate (some d) => .vDate d
    | .rdate none => .vNull
    | .rarray vs => .vRawList (vs.map extractRawValue)
    | .rother => .vUndefined
  | .created_by i => .vStr i
  | .last_edited_by i => .vStr i
  | .unique_id p n => .vStr (formatUniqueId p n)

/-- Whether a string is free of markdown-significant syntax, so that the
external markdown parser renders it as a single plain text node equal to
the input. The character set is conservative, and a leading or trailing
space is excluded because CommonMark strips initial and final whitespace
from paragraph content. -/
def isMarkdownPlain (s : String) : Bool :=
  s.data.all (fun c =>
    !(c ∈ ['*', '_', '~', '[', ']', '(', ')', '<', '>', '&', '#', '!', '\\',
           '+', '-', '.', '|', '=', '\n', '\r', '\t', Char.ofNat 96,
           Char.ofNat 123, Char.ofNat 125]))
  && (match s.data with
      | [] => true
      | c :: _ => c ≠ ' ')
  && (match s.data.reverse with
      | [] => true
      | c :: _ => c ≠ ' ')

/-- Modelled from the external markdown library (`mdast-util-from-markdown`,
an external collaborator, not code of this repository): a nonempty
markdown-plain string parses to a single paragraph holding one text node
whose plain text is the input; the empty string has no paragraph. Inputs
outside that subset have parser-dependent spans that are not modelled here
(a placeholder is returned so no theorem can rely on them). -/
def fromMarkdownModel (s : String) : List RichTextItem :=
  if s ≠ "" ∧ isMarkdownPlain s then [⟨s, s⟩] else []

/-- `toRichText(value)`: `undefined` → `[]`, a structured span list passes
through, and a string is parsed as markdown with a plain-text fallback when
no paragraph is produced. Inputs outside the declared `MaybeRichText`
domain (`string | RichText[] | undefined`) are not modelled. -/
def toRichText (value : Value) : List RichTextItem :=
  match value with
  | .vUndefined => []
  | .vRich spans => spans
  | .vStr s =>
    let richTexts := fromMarkdownModel s
    if richTexts = [] then [⟨s, s⟩] else richTexts
  | _ => []

/-- Placeholder rendering for the `value as string` cast of `dehydrateValue`
on a truthy non-string input: the TS code would store the raw value in the
option-name slot; only string keys are in the declared input domain, so
other inputs are represented by a string stand-in and are not relied on by
any theorem. -/
def toStringFallback : Value → String
  | .vNum n => toString n
  | .vBool b => if b then "true" else "false"
  | .vUrl h => h
  | _ => ""

/-- The outcome of `dehydrateValue`: a property payload, the JS `undefined`
return for hydrate-only types, or the runtime `TypeError` raised when `.map`
is invoked on a value that is not an array. -/
inductive DehydrateResult where
  | ok (v : PropValue)
  | undefv
  | typeError

/-- `dehydrateValue(field, value)`: build the remote property payload for a
local value. Hydrate-only types fall through to `undefv`. The casts
`value as null | number`, `as string`, `as boolean` and
`as null | {start, end}` are modelled on their declared domains. For
multi-select, relation and people the source invokes `.map` on the value
with no guard; a non-array input raises (`typeError`). -/
def dehydrateValue (field : Field) (value : Value) : DehydrateResult :=
  match field.type with
  | .title => .ok (.title (toRichText value))
  | .rich_text => .ok (.rich_text (toRichText value))
  | .number =>
    .ok (.number (match value with
      | .vNum n => some n
      | _ => none))
  | .select =>
    if jsFalsy value then .ok (.select none)
    else
      .ok (.select (some (match value with
        | .vStr s => (mapGet (buildKeyToNameMap field.options) s).getD s
        | v => toStringFallback v)))
  | .multi_select =>
    match value with
    | .vStrList keys =>
      .ok (.multi_select
        (keys.map (fun k => (mapGet (buildKeyToNameMap field.options) k).getD k)))
    | _ => .typeError
  | .status =>
    if jsFalsy value then .ok (.status none)
    else
      .ok (.status (some (match value with
        | .vStr s => (mapGet (buildStatusKeyToNameMap field.groups) s).getD s
        | v => toStringFallback v)))
  | .date =>
    .ok (.date (match value with
      | .vDate d => some d
      | _ => none))
  | .checkbox =>
    .ok (.checkbox (match value with
      | .vBool b => b
      | _ => false))
  | .url =>
    .ok (.url (match value with
      | .vStr s => some s
      | _ => none))
  | .email =>
    .ok (.email (match value with
      | .vStr s => some s
      | _ => none))
  | .phone_number =>
    .ok (.phone_number (match value with
      | .vStr s => some s
      | _ => none))
  | .relation =>
    match value with
    | .vStrList ids => .ok (.relation ids false)
    | _ => .typeError
  | .people =>
    match value with
    | .vStrList ids => .ok (.people ids)
    | _ => .typeError
  | .formula => .undefv
  | .rollup => .undefv
  | .created_time => .undefv
  | .created_by => .undefv
  | .last_edited_time => .undefv
  | .last_edited_by => .undefv
  | .unique_id => .undefv
  | .files => .undefv

/-- `hydrate(schema, properties)`: for every schema key in schema order,
look up the remote property by the field's label; skip absent properties and
`undefined` hydrations, else assign the hydrated value. -/
def hydrate (schema : Schema) (properties : List (String × PropValue)) :
    List (String × Value) :=
  schema.foldl (fun result kf =>
    match properties.lookup kf.2.label with
    | none => result
    | some property =>
      match hydrateValue property kf.2 with
      | .vUndefined => result
      | v => jsSet result kf.1 v) []

/-- The fixed set of field types `buildUpsertFilter` rejects
(`UNSUPPORTED_TYPES`). -/
def UNSUPPORTED_TYPES : List FieldType :=
  [.multi_select, .date, .people, .files, .formula, .rollup,
   .created_time, .created_by, .last_edited_time, .last_edited_by]

/-- Rendered name of a field type, as interpolated into error messages. -/
def fieldTypeName : FieldType → String
  | .title => "title"
  | .rich_text => "rich_text"
  | .number => "number"
  | .select => "select"
  | .multi_select => "multi_select"
  | .status => "status"
  | .date => "date"
  | .people => "people"
  | .files => "files"
  | .checkbox => "checkbox"
  | .url => "url"
  | .email => "email"
  | .phone_number => "phone_number"
  | .formula => "formula"
  | .relation => "relation"
  | .rollup => "rollup"
  | .created_time => "created_time"
  | .created_by => "created_by"
  | .last_edited_time => "last_edited_time"
  | .last_edited_by => "last_edited_by"
  | .unique_id => "unique_id"

/-- `toFilterString(value)`: string for filter matching; `null`/`undefined`
become `""`, a `URL` yields its `href`, numbers and booleans are
stringified, and anything else (arrays, objects) becomes `""`. -/
def toFilterString : Value → String
  | .vNull => ""
  | .vUndefined => ""
  | .vUrl href => href
  | .vStr s => s
  | .vNum n => toString n
  | .vBool b => if b then "true" else "false"
  | _ => ""

/-- JS `Number` on a string, modelled for optionally-signed integer
literals (other numeric formats are outside what any claim exercises and
coerce to `NaN`, i.e. `none`); the empty/blank string coerces to `0`. -/
def jsStringToNumber (s : String) : Option Int :=
  if s.trim = "" then some 0
  else if (s.trim).data.all Char.isDigit then some ((s.trim).toNat!)
  else if (s.trim).startsWith "-" ∧ ((s.trim).drop 1).data.all Char.isDigit
      ∧ (s.trim).length > 1 then
    some (-((s.trim).drop 1).toNat!)
  else none

/-- JS `Number(value)` coercion, with `none` as `NaN`. `null` and `[]`
coerce to `0`, a one-element array coerces through its element, and other
objects coerce to `NaN`. -/
def jsNumber : Value → Option Int
  | .vNum n => some n
  | .vBool b => some (if b then 1 else 0)
  | .vNull => some 0
  | .vUndefined => none
  | .vStr s => jsStringToNumber s
  | .vStrList ss =>
    match ss with
    | [] => some 0
    | [s] => jsStringToNumber s
    | _ => none
  | _ => none

/-- JS `Boolean(value)` coercion: objects and arrays are `true`. -/
def jsBoolean : Value → Bool
  | .vBool b => b
  | .vStr s => s ≠ ""
  | .vNum n => n ≠ 0
  | .vNull => false
  | .vUndefined => false
  | _ => true

/-- A data-source query filter, restricted to the shapes `buildUpsertFilter`
produces. Numeric equality carries a `Option Int` (`none` = `NaN`). -/
inductive Filter where
  | titleEq (property : String) (equals : String)
  | richTextEq (property : String) (equals : String)
  | numberEq (property : String) (equals : Option Int)
  | checkboxEq (property : String) (equals : Bool)
  | selectEq (property : String) (equals : String)
  | statusEq (property : String) (equals : String)
  | relationContains (property : String) (contains : String)
  | andFilter (filters : List Filter)

/-- The error message for an upsert-unsupported field type. -/
def unsupportedTypeMessage (t : FieldType) : String :=
  "Property type \"" ++ fieldTypeName t ++ "\" is not supported for upsert matching. "
    ++ "Use a property with type: title, rich_text, number, checkbox, select, status, "
    ++ "email, url, phone_number, or unique_id."

/-- The per-key body of `buildUpsertFilter`: look up the field (named error
when absent), read the data value (`undefined` when missing) and build the
equality filter matching the field type; the fixed unsupported set raises a
named error carrying the type name. -/
def buildOneFilter (schema : Schema) (data : List (String × Value)) (key : String) :
    Except String Filter :=
  match schema.lookup key with
  | none => .error ("Property \"" ++ key ++ "\" not found in schema.")
  | some field =>
    let value := (data.lookup key).getD .vUndefined
    let propertyName := field.label
    match field.type with
    | .title => .ok (.titleEq propertyName (toFilterString value))
    | .rich_text => .ok (.richTextEq propertyName (toFilterString value))
    | .email => .ok (.richTextEq propertyName (toFilterString value))
    | .phone_number => .ok (.richTextEq propertyName (toFilterString value))
    | .url => .ok (.richTextEq propertyName (toFilterString value))
    | .number =>
      .ok (.numberEq propertyName (match value with
        | .vNum n => some n
        | v => jsNumber v))
    | .checkbox => .ok (.checkboxEq propertyName (jsBoolean value))
    | .select => .ok (.selectEq propertyName (toFilterString value))
    | .status => .ok (.statusEq propertyName (toFilterString value))
    | .unique_id =>
      .ok (.numberEq propertyName (match value with
        | .vNum n => some n
        | v => jsNumber v))
    | .relation => .ok (.relationContains propertyName (toFilterString value))
    | t =>
      if t ∈ UNSUPPORTED_TYPES then .error (unsupportedTypeMessage t)
      else
        .error ("Unknown property type \"" ++ fieldTypeName t ++ "\" for property \""
          ++ key ++ "\".")

/-- Sequential map over a throwing function: the first raised error
propagates, as a JS `Array.prototype.map` callback that throws does. -/
def exceptMapM {α β : Type} (f : α → Except String β) : List α → Except String (List β)
  | [] => .ok []
  | a :: as =>
    match f a with
    | .error e => .error e
    | .ok b =>
      match exceptMapM f as with
      | .error e => .error e
      | .ok bs => .ok (b :: bs)

/-- `buildUpsertFilter(schema, uniqueProperties, data)`: map every unique
key to its equality filter (errors propagate from the first failing key),
returning a bare filter for a single key and an `and` of the filters, in
key-argument order, otherwise. -/
def buildUpsertFilter (schema : Schema) (uniqueProperties : List String)
    (data : List (String × Value)) : Except String Filter :=
  match exceptMapM (buildOneFilter schema data) uniqueProperties with
  | .error e => .error e
  | .ok filters =>
    .ok (match filters with
      | [f] => f
      | fs => .andFilter fs)

example :
    buildUpsertFilter
      [("name", { label := "Name", type := .title }),
       ("email", { label := "Email", type := .email })]
      ["name", "email"]
      [("name", .vStr "John"), ("email", .vStr "john@example.com")] =
    .ok (.andFilter [.titleEq "Name" "John", .richTextEq "Email" "john@example.com"]) := by
  rfl

example :
    buildUpsertFilter [("name", { label := "Name", type := .title })] ["name"] [] =
    .ok (.titleEq "Name" "") := by
  rfl

example :
    buildUpsertFilter [("tags", { label := "Tags", type := .multi_select })] ["tags"]
      [("tags", .vStrList ["a", "b"])] =
    .error (unsupportedTypeMessage .multi_select) := by
  rfl

/-- The opening brace character. -/
def lbrace : Char := Char.ofNat 123

/-- The closing brace character. -/
def rbrace : Char := Char.ofNat 125

/-- Whether a character is left unencoded by `encodeURIComponent`
(alphanumerics and `-_.!~*'()`). -/
def isUnreservedURI (c : Char) : Bool :=
  c.isAlpha || c.isDigit || c ∈ ['-', '_', '.', '!', '~', '*', '(', ')']
    || c = Char.ofNat 39

/-- Uppercase hexadecimal digit for a nibble. -/
def hexDigitChar (n : Nat) : Char :=
  if n < 10 then Char.ofNat (48 + n) else Char.ofNat (55 + n)

/-- UTF-8 bytes of a character. -/
def utf8Bytes (c : Char) : List Nat :=
  let n := c.toNat
  if n < 128 then [n]
  else if n < 2048 then [192 + n / 64, 128 + n % 64]
  else if n < 65536 then [224 + n / 4096, 128 + (n / 64) % 64, 128 + n % 64]
  else [240 + n / 262144, 128 + (n / 4096) % 64, 128 + (n / 64) % 64, 128 + n % 64]

/-- Percent-encoding of one byte, uppercase hex. -/
def percentEncodeByte (b : Nat) : List Char :=
  ['%', hexDigitChar (b / 16), hexDigitChar (b % 16)]

/-- JS `encodeURIComponent`: unreserved characters pass through, all others
are percent-encoded per UTF-8 byte. -/
def encodeURIComponent (s : String) : String :=
  String.mk (s.data.flatMap (fun c =>
    if isUnreservedURI c then [c] else (utf8Bytes c).flatMap percentEncodeByte))

example : encodeURIComponent "~>s~" = "~%3Es~" := by decide

/-- The literal prefix of a block-property reference,
`{{notion:block_property:` (braces escaped). -/
def refPrefix : List Char := "\x7b\x7bnotion:block_property:".toList

/-- Drop an expected literal prefix, or fail. -/
def dropPrefix? : List Char → List Char → Option (List Char)
  | [], cs => some cs
  | _ :: _, [] => none
  | p :: ps, c :: cs => if c = p then dropPrefix? ps cs else none

/-- Match the reference pattern
`{{notion:block_property:([^:]+):([^:]+):([^}]+)}}` at the head of the
character list, returning the three capture groups and the remainder. The
greedy character classes make the regex match deterministic: each group is
the maximal run excluding its delimiter. -/
def tryMatchRef (cs : List Char) :
    Option (List Char × List Char × List Char × List Char) :=
  match dropPrefix? refPrefix cs with
  | none => none
  | some r0 =>
    let e := r0.takeWhile (fun c => c ≠ ':')
    match r0.dropWhile (fun c => c ≠ ':') with
    | ':' :: r2 =>
      if e = [] then none
      else
        let d := r2.takeWhile (fun c => c ≠ ':')
        match r2.dropWhile (fun c => c ≠ ':') with
        | ':' :: r4 =>
          if d = [] then none
          else
            let p := r4.takeWhile (fun c => c ≠ rbrace)
            match r4.dropWhile (fun c => c ≠ rbrace) with
            | c1 :: c2 :: rest =>
              if p = [] then none
              else if c1 = rbrace && c2 = rbrace then some (e, d, p, rest)
              else none
            | _ => none
        | _ => none
    | _ => none

/-- A maximal decomposition unit of an expression: literal text or one
block-property reference (encoded property id, data source id, page id). -/
inductive Chunk where
  | lit (cs : List Char)
  | ref (enc ds page : List Char)
deriving DecidableEq, Repr

/-- Render a chunk back to its source text; for a reference this is exactly
the matched slice. -/
def renderChunk : Chunk → List Char
  | .lit cs => cs
  | .ref e d p => refPrefix ++ e ++ ':' :: d ++ ':' :: p ++ [rbrace, rbrace]

/-- Decompose an expression into literal characters and references, scanning
left to right as `replaceAll` does. Fuel-based recursion; every use supplies
fuel exceeding the character count. -/
def parseChunksGo (fuel : Nat) (cs : List Char) : List Chunk :=
  match fuel with
  | 0 => [.lit cs]
  | fuel + 1 =>
    match tryMatchRef cs with
    | some (e, d, p, rest) => .ref e d p :: parseChunksGo fuel rest
    | none =>
      match cs with
      | [] => []
      | c :: rest => .lit [c] :: parseChunksGo fuel rest

/-- Chunk decomposition of an expression string. -/
def parseChunks (s : String) : List Chunk := parseChunksGo (s.length + 1) s.toList

/-- The `encodedIdToKey` map of `restoreExpression`: percent-encoded field id
→ local key, for every field with a truthy id, in schema order. -/
def encodedIdToKey (schema : Schema) : List (String × String) :=
  schema.filterMap (fun kf =>
    match kf.2.id with
    | some i => if i = "" then none else some (encodeURIComponent i, kf.1)
    | none => none)

/-- The local-key function-call replacement `prop("key")`. -/
def propCall (key : String) : List Char := ("prop(\"" ++ key ++ "\")").toList

/-- The per-reference rewrite rule of `restoreExpression`: a reference to a
different data source, or to an unknown encoded id, is kept byte-for-byte;
a matching reference becomes `prop("key")`; literal text is untouched. -/
def rewriteChunk (tableId : List Char) (encMap : List (String × String)) :
    Chunk → List Char
  | .lit cs => cs
  | .ref e d p =>
    if d ≠ tableId then renderChunk (.ref e d p)
    else
      match mapGet encMap (String.mk e) with
      | some key => propCall key
      | none => renderChunk (.ref e d p)

/-- The `replaceAll` scan of `restoreExpression` over the character list:
at each position try the reference pattern; on a match emit the replacement
(the original matched text when the data source differs or the id is
unknown) and continue after the match, else copy one character. -/
def restoreGo (tableId : List Char) (encMap : List (String × String)) :
    Nat → List Char → List Char
  | 0, cs => cs
  | fuel + 1, cs =>
    match tryMatchRef cs with
    | some (e, d, p, rest) =>
      (if d ≠ tableId then renderChunk (.ref e d p)
       else
         match mapGet encMap (String.mk e) with
         | some key => propCall key
         | none => renderChunk (.ref e d p)) ++ restoreGo tableId encMap fuel rest
    | none =>
      match cs with
      | [] => []
      | c :: rest => c :: restoreGo tableId encMap fuel rest

/-- `restoreExpression(expression, dataSourceId, schema)`: rewrite every
block-property reference whose data source matches into `prop("key")` form
using the percent-encoded-id map, leaving everything else unchanged. -/
def restoreExpression (expression : String) (dataSourceId : String)
    (schema : Schema) : String :=
  String.mk (restoreGo dataSourceId.toList (encodedIdToKey schema)
    (expression.length + 1) expression.toList)

example :
    restoreExpression "\x7b\x7bnotion:block_property:~%3Es~:T1:pg\x7d\x7d" "T1"
      [("quantity", { label := "Quantity", type := .number, id := some "~>s~" })] =
    "prop(\"quantity\")" := by
  decide

example :
    restoreExpression "\x7b\x7bnotion:block_property:~%3Es~:T1:pg\x7d\x7d" "T2"
      [("quantity", { label := "Quantity", type := .number, id := some "~>s~" })] =
    "\x7b\x7bnotion:block_property:~%3Es~:T1:pg\x7d\x7d" := by
  decide

example :
    restoreExpression
      ("round(\x7b\x7bnotion:block_property:~%3Es~:T1:b1\x7d\x7d * "
        ++ "\x7b\x7bnotion:block_property:pdS%7D:T1:b2\x7d\x7d, 2)") "T1"
      [("quantity", { label := "Quantity", type := .number, id := some "~>s~" }),
       ("unitPrice", { label := "Unit Price", type := .number, id := some "pdS\x7d" })] =
    "round(prop(\"quantity\") * prop(\"unitPrice\"), 2)" := by
  decide

/-- Whether a chunk is a reference to the given data source (table). -/
def Chunk.refTo (t : List Char) : Chunk → Bool
  | .lit _ => false
  | .ref _ d _ => d = t

example :
    diffSchema [("oldKey", { label := "Field", type := .title, id := some "abc123" })]
      [("newKey", { label := "Field", type := .title, id := some "abc123" })] =
    [.modified "newKey"
      { label := "Field", type := .title, id := some "abc123" }
      { label := "Field", type := .title, id := some "abc123" }
      ["key"] (some "abc123") (some "oldKey")] := by
  decide

/-- The change set of a diff (empty for added/removed entries). -/
def Diff.changes : Diff → List String
  | .modified _ _ _ ch _ _ => ch
  | _ => []

/-- The matched id of a diff (`none` for added/removed entries). -/
def Diff.matchedId : Diff → Option String
  | .modified _ _ _ _ i _ => i
  | _ => none

/-- The `fromKey` of a diff (`none` for added/removed entries). -/
def Diff.fromKeyOf : Diff → Option String
  | .modified _ _ _ _ _ fk => fk
  | _ => none

/-- The `from`-side field snapshot of a diff (the carried field for
added/removed entries). -/
def Diff.fromField : Diff → Field
  | .modified _ fF _ _ _ _ => fF
  | .added _ f => f
  | .removed _ f => f

section Lemmas

/-- `find?` returns the unique element satisfying the predicate. -/
theorem find?_eq_of_unique {α : Type} {l : List α} {p : α → Bool} {x : α}
    (hmem : x ∈ l) (hx : p x = true) (huniq : ∀ y ∈ l, p y = true → y = x) :
    l.find? p = some x := by
  induction l with
  | nil => cases hmem
  | cons a as ih =>
    by_cases pa : p a = true
    · have hax : a = x := huniq a (List.mem_cons_self a as) pa
      subst hax
      simp [List.find?, pa]
    · have pa' : p a = false := by simpa using pa
      have hax : x ≠ a := fun h => pa (h ▸ hx)
      have hmem' : x ∈ as := by
        cases hmem with
        | head => exact absurd rfl hax
        | tail _ h => exact h
      simp only [List.find?, pa']
      exact ih hmem' (fun y hy hpy => huniq y (List.mem_cons_of_mem a hy) hpy)

/-- Two list elements that project to the same `some` value under a
`filterMap` function with `Nodup` image are the same element. -/
theorem eq_of_nodup_filterMap {α β : Type} {l : List α} {f : α → Option β}
    (h : (l.filterMap f).Nodup) {x y : α} {v : β}
    (hx : x ∈ l) (hy : y ∈ l) (hfx : f x = some v) (hfy : f y = some v) : x = y := by
  induction l with
  | nil => cases hx
  | cons a as ih =>
    have htail : (as.filterMap f).Nodup := by
      cases hfa : f a with
      | none => simpa [List.filterMap_cons, hfa] using h
      | some b =>
        rw [List.filterMap_cons, hfa] at h
        exact h.of_cons
    cases hx with
    | head =>
      cases hy with
      | head => rfl
      | tail _ hy' =>
        exfalso
        rw [List.filterMap_cons, hfx] at h
        rw [List.nodup_cons] at h
        exact h.1 (List.mem_filterMap.mpr ⟨y, hy', hfy⟩)
    | tail _ hx' =>
      cases hy with
      | head =>
        exfalso
        rw [List.filterMap_cons, hfy] at h
        rw [List.nodup_cons] at h
        exact h.1 (List.mem_filterMap.mpr ⟨x, hx', hfx⟩)
      | tail _ hy' => exact ih htail hx' hy'

/-- With `Nodup` keys, the by-id lookup of `diffSchema` resolves to any
given entry carrying that id. -/
theorem fromById_eq_self {S : Schema} (hi : (schemaIds S).Nodup)
    {k : String} {f : Field} {i : String}
    (hmem : (k, f) ∈ S) (hid : f.id = some i) :
    fromById S i = some (k, f) := by
  unfold fromById
  apply find?_eq_of_unique (List.mem_reverse.mpr hmem)
  · simp [hid]
  · intro y hy hpy
    simp only [beq_iff_eq] at hpy
    exact eq_of_nodup_filterMap hi (List.mem_reverse.mp hy) hmem hpy hid

/-- With `Nodup` keys, the by-key lookup of `diffSchema` resolves to any
given entry at that key. -/
theorem fromByKey_eq_self {S : Schema} (hk : (schemaKeys S).Nodup)
    {k : String} {f : Field} (hmem : (k, f) ∈ S) :
    fromByKey S k = some f := by
  unfold fromByKey
  rw [find?_eq_of_unique (x := (k, f)) (List.mem_reverse.mpr hmem) (by simp)]
  · rfl
  · intro y hy hpy
    simp only [beq_iff_eq] at hpy
    exact List.inj_on_of_nodup_map hk (List.mem_reverse.mp hy) hmem hpy

/-- A key that heads the suffix of a `Nodup` key list is not among the
prefix keys. -/
theorem head_key_not_in_prefix {S : Schema} (hk : (schemaKeys S).Nodup)
    {pre post : List (String × Field)} {k : String} {f : Field}
    (hS : S = pre ++ (k, f) :: post) : k ∉ schemaKeys pre := by
  subst hS
  intro hmem
  unfold schemaKeys at hk
  rw [List.map_append, List.nodup_append] at hk
  exact hk.2.2 hmem (by simp)

/-- Self-matching step: on a schema with `Nodup` keys and ids, `findMatch`
pairs every field with itself. -/
theorem findMatch_self {S : Schema} (hk : (schemaKeys S).Nodup)
    (hi : (schemaIds S).Nodup) {pre post : List (String × Field)}
    {k : String} {f : Field} (hS : S = pre ++ (k, f) :: post) :
    findMatch S (schemaKeys pre) k f = some (k, f) := by
  have hmem : (k, f) ∈ S := by subst hS; simp
  have hnotpre : k ∉ schemaKeys pre := head_key_not_in_prefix hk hS
  unfold findMatch
  cases hid : f.id with
  | some i =>
    by_cases hie : i = ""
    · subst hie
      have h1 : matchById S (schemaKeys pre) f = none := by
        unfold matchById
        rw [hid]
        simp
      rw [h1]
      have h2 : matchByKey S (schemaKeys pre) k = some (k, f) := by
        unfold matchByKey
        rw [fromByKey_eq_self hk hmem]
        simp [hnotpre]
      rw [h2]
      rfl
    · have h1 : matchById S (schemaKeys pre) f = some (k, f) := by
        unfold matchById
        rw [hid]
        simp only [if_neg hie]
        rw [fromById_eq_self hi hmem hid]
        simp [hnotpre]
      rw [h1]
      rfl
  | none =>
    have h1 : matchById S (schemaKeys pre) f = none := by
      unfold matchById
      rw [hid]
    rw [h1]
    have h2 : matchByKey S (schemaKeys pre) k = some (k, f) := by
      unfold matchByKey
      rw [fromByKey_eq_self hk hmem]
      simp [hnotpre]
    rw [h2]
    rfl

/-- A field compared against itself has an empty change set. -/
theorem computeChanges_self (k : String) (f : Field) : computeChanges k k f f = [] := by
  simp [computeChanges]

/-- Self-diff loop invariant: processing the suffix of a schema against the
schema itself consumes every suffix key and emits no diff. -/
theorem diffGoWith_self {S : Schema} (hk : (schemaKeys S).Nodup)
    (hi : (schemaIds S).Nodup) :
    ∀ post pre, S = pre ++ post →
      diffGoWith (findMatch S) post (schemaKeys pre) =
        ([], schemaKeys pre ++ schemaKeys post) := by
  intro post
  induction post with
  | nil => intro pre _; simp [diffGoWith, schemaKeys]
  | cons kf rest ih =>
    intro pre hS
    obtain ⟨k, f⟩ := kf
    rw [diffGoWith]
    rw [findMatch_self hk hi hS]
    simp only [computeChanges_self]
    have hrec := ih (pre ++ [(k, f)]) (by simpa using hS)
    have hkeys : schemaKeys (pre ++ [(k, f)]) = schemaKeys pre ++ [k] := by
      simp [schemaKeys]
    rw [hkeys] at hrec
    rw [hrec]
    simp [schemaKeys]

end Lemmas

/-- A from-schema whose two fields share the remote id `x`: the id-indexed
lookup map retains only the later field, so the self-diff is not empty. -/
def dupIdSchema : Schema :=
  [("a", { label := "A", type := .rich_text, id := some "x" }),
   ("b", { label := "B", type := .rich_text, id := some "x" })]

/-- C9 (counterexample): `diffSchema(S, S)` is NOT `[]` for every schema
`S` — a schema whose two fields share one remote id self-diffs to a
modified/added/removed triple, because the by-id map retains only the later
field. -/
theorem diffSchema_self_counterexample : diffSchema dupIdSchema dupIdSchema ≠ [] := by
  decide

/-- C9 (amended): for every schema `S` whose keys are distinct (as JS object
keys are) and whose declared field ids are pairwise distinct,
`diffSchema(S, S) = []`: every field matches itself and matched pairs with
zero changes produce no diff entry. -/
theorem diffSchema_self_nil (S : Schema) (hk : (schemaKeys S).Nodup)
    (hi : (schemaIds S).Nodup) : diffSchema S S = [] := by
  have h := diffGoWith_self hk hi S [] rfl
  simp only [schemaKeys, List.map_nil, List.nil_append] at h
  unfold diffSchema
  rw [h]
  simp only [List.nil_append]
  rw [List.filter_eq_nil_iff.mpr, List.map_nil]
  intro kf hkf
  simp only [decide_not, Bool.not_eq_true', decide_eq_false_iff_not, Decidable.not_not]
  exact List.mem_map_of_mem _ hkf

/-- C9 (witness): the amended self-diff theorem applied to a concrete
two-field schema with distinct ids. -/
theorem diffSchema_self_nil_witness :
    diffSchema
      [("name", { label := "Name", type := .title, id := some "t" }),
       ("desc", { label := "Description", type := .rich_text })]
      [("name", { label := "Name", type := .title, id := some "t" }),
       ("desc", { label := "Description", type := .rich_text })] = [] :=
  diffSchema_self_nil _ (by decide) (by decide)

section MatchMembership

/-- A by-id match is an entry of the from-schema. -/
theorem matchById_mem {S : Schema} {c : List String} {f : Field} {m : String × Field}
    (h : matchById S c f = some m) : m ∈ S := by
  unfold matchById at h
  split at h
  · split at h
    · exact absurd h (by simp)
    · split at h
      · next m' hfb =>
          split at h
          · exact absurd h (by simp)
          · injection h with h
            subst h
            unfold fromById at hfb
            exact List.mem_reverse.mp (List.mem_of_find?_eq_some hfb)
      · exact absurd h (by simp)
  · exact absurd h (by simp)

/-- A by-key match is an entry of the from-schema. -/
theorem matchByKey_mem {S : Schema} {c : List String} {k : String} {m : String × Field}
    (h : matchByKey S c k = some m) : m ∈ S := by
  unfold matchByKey at h
  split at h
  · next f0 hfb =>
      split at h
      · exact absurd h (by simp)
      · injection h with h
        subst h
        unfold fromByKey at hfb
        cases hfind : S.reverse.find? (fun kf => kf.1 == k) with
        | none => rw [hfind] at hfb; exact absurd hfb (by simp)
        | some m' =>
          rw [hfind] at hfb
          have hk' : m'.1 = k := by
            have := List.find?_some hfind
            simpa using this
          have hm' : m' ∈ S := List.mem_reverse.mp (List.mem_of_find?_eq_some hfind)
          have hpair : (k, m'.2) = m' := by rw [← hk']
          simp only [Option.map_some'] at hfb
          injection hfb with hfb
          subst hfb
          rw [hpair]
          exact hm'
  · exact absurd h (by simp)

/-- A by-label match is an entry of the from-schema. -/
theorem matchByLabel_mem {S : Schema} {c : List String} {f : Field} {m : String × Field}
    (h : matchByLabel S c f = some m) : m ∈ S := by
  unfold matchByLabel at h
  split at h
  · next m' hfb =>
      split at h
      · exact absurd h (by simp)
      · injection h with h
        subst h
        unfold fromByLabel at hfb
        exact List.mem_reverse.mp (List.mem_of_find?_eq_some hfb)
  · exact absurd h (by simp)

/-- A by-singleton-type match is an entry of the from-schema. -/
theorem matchByType_mem {S : Schema} {c : List String} {f : Field} {m : String × Field}
    (h : matchByType S c f = some m) : m ∈ S := by
  unfold matchByType at h
  split at h
  · split at h
    · next m' hfb =>
        split at h
        · exact absurd h (by simp)
        · injection h with h
          subst h
          unfold fromByType at hfb
          exact List.mem_reverse.mp (List.mem_of_find?_eq_some hfb)
    · exact absurd h (by simp)
  · exact absurd h (by simp)

/-- Any `findMatch` result is an entry of the from-schema. -/
theorem findMatch_mem {S : Schema} {c : List String} {k : String} {f : Field}
    {m : String × Field} (h : findMatch S c k f = some m) : m ∈ S := by
  unfold findMatch at h
  cases h1 : matchById S c f with
  | some m1 =>
    rw [h1] at h
    simp only [Option.some_orElse] at h
    injection h with h
    exact h ▸ matchById_mem h1
  | none =>
    rw [h1, Option.none_orElse] at h
    cases h2 : matchByKey S c k with
    | some m2 =>
      rw [h2] at h
      simp only [Option.some_orElse] at h
      injection h with h
      exact h ▸ matchByKey_mem h2
    | none =>
      rw [h2, Option.none_orElse] at h
      cases h3 : matchByLabel S c f with
      | some m3 =>
        rw [h3] at h
        simp only [Option.some_orElse] at h
        injection h with h
        exact h ▸ matchByLabel_mem h3
      | none =>
        rw [h3, Option.none_orElse] at h
        exact matchByType_mem h

end MatchMembership

/-- Membership of `"key"` in a change set marks exactly a key difference. -/
theorem key_mem_computeChanges {a b : String} {f g : Field} :
    "key" ∈ computeChanges a b f g ↔ a ≠ b := by
  by_cases hab : a = b <;> by_cases hl : f.label = g.label <;>
    by_cases ht : f.type = g.type <;> simp [computeChanges, hab, hl, ht]

/-- Shape invariant of emitted `modified` diffs: the carried id is the
truthy id of the matched from-field, `fromKey` is present exactly on a key
change, and it then names a real from-schema entry distinct from the new
key. -/
theorem diffGoWith_modified_inv (S : Schema) :
    ∀ entries consumed d, d ∈ (diffGoWith (findMatch S) entries consumed).1 →
      d.isModified = true →
      d.matchedId = jsTruthyStrOpt d.fromField.id ∧
      (d.fromKeyOf ≠ none ↔ "key" ∈ d.changes) ∧
      (∀ k0, d.fromKeyOf = some k0 → k0 ≠ d.key ∧ (k0, d.fromField) ∈ S) := by
  intro entries
  induction entries with
  | nil => intro consumed d hd _; simp [diffGoWith] at hd
  | cons kf rest ih =>
    intro consumed d hd hmod
    obtain ⟨tk, tf⟩ := kf
    rw [diffGoWith] at hd
    cases hm : findMatch S consumed tk tf with
    | none =>
      rw [hm] at hd
      simp only [List.mem_cons] at hd
      cases hd with
      | inl h => subst h; simp [Diff.isModified] at hmod
      | inr h => exact ih consumed d h hmod
    | some m =>
      obtain ⟨fk, ff⟩ := m
      rw [hm] at hd
      simp only at hd
      by_cases hch : computeChanges fk tk ff tf = []
      · rw [if_pos hch] at hd
        exact ih _ d hd hmod
      · rw [if_neg hch] at hd
        simp only [List.mem_cons] at hd
        cases hd with
        | inr h => exact ih _ d h hmod
        | inl h =>
          subst h
          refine ⟨rfl, ?_, ?_⟩
          · simp only [Diff.fromKeyOf, Diff.changes]
            rw [key_mem_computeChanges]
            by_cases hfk : fk = tk
            · simp [hfk]
            · simp [hfk]
          · intro k0 hk0
            simp only [Diff.fromKeyOf] at hk0
            by_cases hfk : fk ≠ tk
            · rw [if_pos hfk] at hk0
              injection hk0 with hk0
              subst hk0
              exact ⟨hfk, findMatch_mem hm⟩
            · rw [if_neg hfk] at hk0
              exact absurd hk0 (by simp)

/-- C4 (counterexample): a `Modified` entry whose `changes` is only
`["label"]` (no key change) nevertheless carries the matched field's `id` —
refuting that `fromKey` and `id` appear only when the local key differs. -/
theorem diffSchema_modified_id_counterexample :
    ¬ (∀ d ∈ diffSchema
          [("field", { label := "Old Label", type := .title, id := some "abc123" })]
          [("field", { label := "New Label", type := .title, id := some "abc123" })],
        d.isModified = true → "key" ∉ d.changes →
          d.matchedId = none ∧ d.fromKeyOf = none) := by
  decide

/-- C4 (amended): every `Modified` entry of `diffSchema` carries `fromKey`
(the matched from-entry's key, distinct from the new key) exactly when the
local key differs, and carries the matched field's truthy `id` whenever that
field has one — regardless of the change set. -/
theorem diffSchema_modified_carries (fromSchema toSchema : Schema) :
    ∀ d ∈ diffSchema fromSchema toSchema, d.isModified = true →
      d.matchedId = jsTruthyStrOpt d.fromField.id ∧
      (d.fromKeyOf ≠ none ↔ "key" ∈ d.changes) ∧
      (∀ k0, d.fromKeyOf = some k0 → k0 ≠ d.key ∧ (k0, d.fromField) ∈ fromSchema) := by
  intro d hd hmod
  unfold diffSchema at hd
  rw [List.mem_append] at hd
  cases hd with
  | inl h => exact diffGoWith_modified_inv fromSchema toSchema [] d h hmod
  | inr h =>
    exfalso
    obtain ⟨kf, _, hkf⟩ := List.mem_map.mp h
    subst hkf
    simp [Diff.isModified] at hmod

/-- C4 (witness): the amended. theorem applied to the key-rename scenario
`from = {oldKey: title(id abc123)}`, `to = {newKey: title(id abc123)}`. -/
theorem diffSchema_modified_carries_witness :
    (Diff.modified "newKey" { label := "Field", type := .title, id := some "abc123" }
        { label := "Field", type := .title, id := some "abc123" }
        ["key"] (some "abc123") (some "oldKey")).matchedId =
      jsTruthyStrOpt (Diff.modified "newKey"
        { label := "Field", type := .title, id := some "abc123" }
        { label := "Field", type := .title, id := some "abc123" }
        ["key"] (some "abc123") (some "oldKey")).fromField.id ∧
    ((Diff.modified "newKey" { label := "Field", type := .title, id := some "abc123" }
        { label := "Field", type := .title, id := some "abc123" }
        ["key"] (some "abc123") (some "oldKey")).fromKeyOf ≠ none ↔
      "key" ∈ (Diff.modified "newKey"
        { label := "Field", type := .title, id := some "abc123" }
        { label := "Field", type := .title, id := some "abc123" }
        ["key"] (some "abc123") (some "oldKey")).changes) ∧
    (∀ k0, (Diff.modified "newKey"
        { label := "Field", type := .title, id := some "abc123" }
        { label := "Field", type := .title, id := some "abc123" }
        ["key"] (some "abc123") (some "oldKey")).fromKeyOf = some k0 →
      k0 ≠ (Diff.modified "newKey" { label := "Field", type := .title, id := some "abc123" }
        { label := "Field", type := .title, id := some "abc123" }
        ["key"] (some "abc123") (some "oldKey")).key ∧
      (k0, (Diff.modified "newKey" { label := "Field", type := .title, id := some "abc123" }
        { label := "Field", type := .title, id := some "abc123" }
        ["key"] (some "abc123") (some "oldKey")).fromField) ∈
        [("oldKey", { label := "Field", type := .title, id := some "abc123" : Field })]) :=
  diffSchema_modified_carries
    [("oldKey", { label := "Field", type := .title, id := some "abc123" })]
    [("newKey", { label := "Field", type := .title, id := some "abc123" })]
    (Diff.modified "newKey" { label := "Field", type := .title, id := some "abc123" }
      { label := "Field", type := .title, id := some "abc123" }
      ["key"] (some "abc123") (some "oldKey"))
    (by decide) (by decide)

section JsSetLemmas

/-- Updating all key-`k` entries makes the first lookup of `k` yield the new
value exactly when the key occurs. -/
theorem lookup_map_update {α : Type} (m : List (String × α)) (k : String) (v : α) :
    (m.map (fun p => if p.1 = k then (k, v) else p)).lookup k =
      if m.any (fun p => p.1 == k) then some v else none := by
  induction m with
  | nil => rfl
  | cons p ps ih =>
    by_cases hp : p.1 = k
    · rw [List.map_cons, if_pos hp]
      have h1 : ((p :: ps).any fun p => p.1 == k) = true := by
        simp [List.any_cons, hp]
      rw [h1, if_pos rfl]
      simp [List.lookup]
    · rw [List.map_cons, if_neg hp]
      have h1 : (k == p.1) = false := beq_eq_false_iff_ne.mpr (fun hh => hp hh.symm)
      have h2 : (p.1 == k) = false := beq_eq_false_iff_ne.mpr hp
      simp only [List.lookup, h1, List.any_cons, h2, Bool.false_or]
      exact ih

/-- Lookup distributes over append, preferring the left list. -/
theorem lookup_append {α : Type} (m m' : List (String × α)) (k : String) :
    (m ++ m').lookup k = ((m.lookup k).orElse (fun _ => m'.lookup k)) := by
  induction m with
  | nil => simp [List.lookup, Option.orElse]
  | cons p ps ih =>
    simp only [List.cons_append, List.lookup]
    cases hbe : k == p.1 with
    | true => rfl
    | false => exact ih

/-- A list without the key looks the key up to `none`. -/
theorem lookup_eq_none_of_not_any {α : Type} {m : List (String × α)} {k : String}
    (h : m.any (fun p => p.1 == k) = false) : m.lookup k = none := by
  induction m with
  | nil => rfl
  | cons p ps ih =>
    simp only [List.any_cons, Bool.or_eq_false_iff] at h
    have h1 : (k == p.1) = false :=
      beq_eq_false_iff_ne.mpr (fun hh => (beq_eq_false_iff_ne.mp h.1) hh.symm)
    simp only [List.lookup, h1]
    exact ih h.2

/-- Updating key-`k` entries does not alter other keys' lookups. -/
theorem lookup_map_update_ne {α : Type} (m : List (String × α)) {k k' : String}
    (v : α) (h : k' ≠ k) :
    (m.map (fun p => if p.1 = k then (k, v) else p)).lookup k' = m.lookup k' := by
  induction m with
  | nil => rfl
  | cons p ps ih =>
    rw [List.map_cons]
    by_cases hp : p.1 = k
    · rw [if_pos hp]
      have h1 : (k' == k) = false := beq_eq_false_iff_ne.mpr h
      have h2 : (k' == p.1) = false := beq_eq_false_iff_ne.mpr (hp ▸ h)
      simp only [List.lookup, h1, h2]
      exact ih
    · rw [if_neg hp]
      simp only [List.lookup]
      cases hbe : k' == p.1 with
      | true => rfl
      | false => exact ih

/-- `jsSet` makes the set key look up to the new value. -/
theorem lookup_jsSet_self {α : Type} (m : List (String × α)) (k : String) (v : α) :
    (jsSet m k v).lookup k = some v := by
  unfold jsSet
  by_cases h : m.any (fun p => p.1 == k) = true
  · rw [if_pos h, lookup_map_update, if_pos h]
  · have h' : m.any (fun p => p.1 == k) = false := Bool.eq_false_iff.mpr h
    rw [if_neg (fun hh => by rw [h'] at hh; exact Bool.false_ne_true hh)]
    rw [lookup_append, lookup_eq_none_of_not_any h']
    simp [List.lookup, Option.orElse]

/-- `jsSet` leaves other keys' lookups unchanged. -/
theorem lookup_jsSet_ne {α : Type} (m : List (String × α)) {k k' : String} (v : α)
    (h : k' ≠ k) : (jsSet m k v).lookup k' = m.lookup k' := by
  unfold jsSet
  split
  · exact lookup_map_update_ne m v h
  · rw [lookup_append]
    have h1 : List.lookup k' [(k, v)] = none := by
      have hbe : (k' == k) = false := beq_eq_false_iff_ne.mpr h
      simp [List.lookup, hbe]
    rw [h1]
    cases m.lookup k' <;> rfl

/-- `some none` lookups survive the removed-pass fold: every step writes
`none` values only. -/
theorem lookup_removedFold_stable {rest : List Diff} {lbl : String} :
    ∀ {r : List (String × Option PropDef)}, r.lookup lbl = some none →
      (removedFold r rest).lookup lbl = some none := by
  induction rest with
  | nil => intro r h0; exact h0
  | cons d' rest' ih =>
    intro r h0
    unfold removedFold
    rw [List.foldl_cons]
    apply ih
    match d' with
    | .added _ _ => exact h0
    | .modified _ _ _ _ _ _ => exact h0
    | .removed _ field' =>
      by_cases hl : field'.label = lbl
      · show (jsSet r field'.label none).lookup lbl = some none
        rw [hl, lookup_jsSet_self]
      · show (jsSet r field'.label none).lookup lbl = some none
        rw [lookup_jsSet_ne _ _ (fun hh => hl hh.symm)]
        exact h0

/-- Folding `jsSet ... none` over removed diffs pins every removed label's
lookup at `some none`. -/
theorem lookup_removedFold_of_mem {ds : List Diff} {k : String} {f : Field}
    (hd : Diff.removed k f ∈ ds) (r : List (String × Option PropDef)) :
    (removedFold r ds).lookup f.label = some none := by
  induction ds generalizing r with
  | nil => cases hd
  | cons d rest ih =>
    cases hd with
    | head =>
      unfold removedFold
      rw [List.foldl_cons]
      exact lookup_removedFold_stable (by
        show (jsSet r f.label none).lookup f.label = some none
        rw [lookup_jsSet_self])
    | tail _ hmem =>
      unfold removedFold
      rw [List.foldl_cons]
      exact ih hmem _

end JsSetLemmas

/-- `added` diffs survive removing the removed diffs. -/
theorem filter_added_of_filter_not_removed (diffs : List Diff) :
    (diffs.filter (fun d => !d.isRemoved)).filter Diff.isAdded =
      diffs.filter Diff.isAdded := by
  rw [List.filter_filter]
  apply List.filter_congr
  intro d _
  match d with
  | .added _ _ => rfl
  | .removed _ _ => rfl
  | .modified _ _ _ _ _ _ => rfl

/-- `modified` diffs survive removing the removed diffs. -/
theorem filter_modified_of_filter_not_removed (diffs : List Diff) :
    (diffs.filter (fun d => !d.isRemoved)).filter Diff.isModified =
      diffs.filter Diff.isModified := by
  rw [List.filter_filter]
  apply List.filter_congr
  intro d _
  match d with
  | .added _ _ => rfl
  | .removed _ _ => rfl
  | .modified _ _ _ _ _ _ => rfl

/-- No `removed` diff survives removing the removed diffs. -/
theorem filter_removed_of_filter_not_removed (diffs : List Diff) :
    (diffs.filter (fun d => !d.isRemoved)).filter Diff.isRemoved = [] := by
  rw [List.filter_filter]
  apply List.filter_eq_nil_iff.mpr
  intro d _
  match d with
  | .added _ _ => simp [Diff.isRemoved]
  | .removed _ _ => simp [Diff.isRemoved]
  | .modified _ _ _ _ _ _ => simp [Diff.isRemoved]

/-- C3: `applySchemaChanges` handles `Removed` diffs by strategy. Under
`strict` it raises — and this is the only raising case — atomically (the
`Except` result carries no partial map), with a message enumerating every
removed field key, comma-joined, in diff order, even for a single removed
field; under `overwrite` it emits `null` keyed by each removed field's
label; under `merge` removed diffs contribute nothing (the result equals
that of the diff list with removed entries dropped). -/
theorem applySchemaChanges_removed_spec (localSchema : Schema) (diffs : List Diff) :
    (diffs.filter Diff.isRemoved ≠ [] →
      applySchemaChanges localSchema diffs .strict =
        .error ("Unrecognized remote fields: "
          ++ String.intercalate ", " ((diffs.filter Diff.isRemoved).map Diff.key))) ∧
    (∀ strategy, (∃ e, applySchemaChanges localSchema diffs strategy = .error e) ↔
      (strategy = .strict ∧ diffs.filter Diff.isRemoved ≠ [])) ∧
    (∀ k f, Diff.removed k f ∈ diffs →
      ∃ r, applySchemaChanges localSchema diffs .overwrite = .ok r ∧
        r.lookup f.label = some none) ∧
    (applySchemaChanges localSchema diffs .merge =
      applySchemaChanges localSchema (diffs.filter (fun d => !d.isRemoved)) .merge) := by
  refine ⟨?_, ?_, ?_, ?_⟩
  · intro hne
    have hlen : 0 < (diffs.filter Diff.isRemoved).length := List.length_pos.mpr hne
    unfold applySchemaChanges
    rw [if_pos hlen]
    simp only []
    rw [if_pos (by simpa using hlen)]
  · intro strategy
    constructor
    · rintro ⟨e, he⟩
      unfold applySchemaChanges at he
      by_cases hr : (diffs.filter Diff.isRemoved).length > 0
      · rw [if_pos hr] at he
        match strategy with
        | .strict => exact ⟨rfl, List.length_pos.mp hr⟩
        | .overwrite => exact absurd he (by simp)
        | .merge => exact absurd he (by simp)
      · rw [if_neg hr] at he
        exact absurd he (by simp)
    · rintro ⟨hs, hne⟩
      subst hs
      have hlen : 0 < (diffs.filter Diff.isRemoved).length := List.length_pos.mpr hne
      unfold applySchemaChanges
      rw [if_pos hlen]
      simp only []
      rw [if_pos (by simpa using hlen)]
      exact ⟨_, rfl⟩
  · intro k f hd
    have hmem : Diff.removed k f ∈ diffs.filter Diff.isRemoved :=
      List.mem_filter.mpr ⟨hd, rfl⟩
    have hlen : 0 < (diffs.filter Diff.isRemoved).length :=
      List.length_pos.mpr (fun hnil => by rw [hnil] at hmem; cases hmem)
    unfold applySchemaChanges
    rw [if_pos hlen]
    exact ⟨_, rfl, lookup_removedFold_of_mem hmem _⟩
  · have hbase : baseResult localSchema (diffs.filter (fun d => !d.isRemoved)) =
        baseResult localSchema diffs := by
      unfold baseResult
      rw [filter_added_of_filter_not_removed, filter_modified_of_filter_not_removed]
    unfold applySchemaChanges
    rw [filter_removed_of_filter_not_removed]
    by_cases hr : (diffs.filter Diff.isRemoved).length > 0
    · rw [if_pos hr]
      simp only [List.length_nil, gt_iff_lt, lt_self_iff_false, if_false, hbase]
    · rw [if_neg hr]
      simp only [List.length_nil, gt_iff_lt, lt_self_iff_false, if_false, hbase]

/-- C3 (witness): the strict, overwrite and merge clauses at the spec's
scenario `from = {foo, bar}` absent from `to = {}`, plus an overwrite
lookup. -/
theorem applySchemaChanges_removed_spec_witness :
    (applySchemaChanges [] [.removed "foo" { label := "Foo", type := .rich_text },
        .removed "bar" { label := "Bar", type := .rich_text }] .strict =
      .error ("Unrecognized remote fields: " ++ String.intercalate ", " ["foo", "bar"])) ∧
    (∃ r, applySchemaChanges [] [.removed "foo" { label := "Foo", type := .rich_text },
        .removed "bar" { label := "Bar", type := .rich_text }] .overwrite = .ok r ∧
      r.lookup "Foo" = some none) := by
  have h := applySchemaChanges_removed_spec []
    [.removed "foo" { label := "Foo", type := .rich_text },
     .removed "bar" { label := "Bar", type := .rich_text }]
  refine ⟨?_, ?_⟩
  · have := h.1 (by decide)
    simpa using this
  · have := h.2.2.1 "foo" { label := "Foo", type := .rich_text } (by decide)
    simpa using this

/-- C5: for a `Modified` diff whose key resolves in the local schema (and
whose diff/source ids, when present, are nonempty as remote ids are), the
emitted entry is keyed by the old (`from`) label on a label rename — with
the definition's `name` carrying the new label — and by the current label
otherwise; the definition's `id` prefers the diff's `id`, falls back to the
source field's `id`, and otherwise keeps the local field's own id from
`toPropertyDefinition`. Holds under every strategy. -/
theorem applySchemaChanges_modified_spec (localSchema : Schema) (key : String)
    (fromF toF : Field) (changes : List String) (diffId fromKey : Option String)
    (field : Field) (strategy : ConflictStrategy)
    (hlookup : localSchema.lookup key = some field)
    (hid1 : diffId ≠ some "") (hid2 : fromF.id ≠ some "") :
    applySchemaChanges localSchema
      [.modified key fromF toF changes diffId fromKey] strategy =
    .ok [((if changes.contains "label" then fromF.label else field.label),
      some { toPropertyDefinition field with
        id := (match diffId with
          | some x => some x
          | none => match fromF.id with
            | some y => some y
            | none => (toPropertyDefinition field).id),
        name := if changes.contains "label" then some field.label
          else (toPropertyDefinition field).name })] := by
  unfold applySchemaChanges
  rw [if_neg (by simp [Diff.isRemoved])]
  unfold baseResult
  simp only [List.filter, Diff.isAdded, Diff.isModified, Diff.isRemoved]
  rw [List.foldl_nil, List.foldl_cons, List.foldl_nil]
  simp only [applyModified]
  rw [hlookup]
  cases diffId with
  | some x =>
    have hx : x ≠ "" := fun hh => hid1 (congrArg some hh)
    cases hlbl : changes.contains "label" with
    | true => simp [hx, jsSet]
    | false => simp [hx, jsSet]
  | none =>
    revert hid2
    cases hfi : fromF.id with
    | some y =>
      intro hid2
      have hy : y ≠ "" := fun hh => hid2 (congrArg some hh)
      cases hlbl : changes.contains "label" with
      | true => simp [hy, jsSet]
      | false => simp [hy, jsSet]
    | none =>
      intro _
      cases hlbl : changes.contains "label" with
      | true => simp [jsSet]
      | false => simp [jsSet]

/-- C5 (witness): the modified-diff theorem at the label-rename scenario of
the repository's own tests (`Old Name` → `New Name`, id `abc`). -/
theorem applySchemaChanges_modified_spec_witness :
    applySchemaChanges [("name", { label := "New Name", type := .title, id := some "abc" })]
      [.modified "name" { label := "Old Name", type := .title, id := some "abc" }
        { label := "New Name", type := .title, id := some "abc" } ["label"] none none]
      .merge =
    .ok [((if ["label"].contains "label" then "Old Name"
        else ({ label := "New Name", type := .title, id := some "abc" : Field }).label),
      some { toPropertyDefinition { label := "New Name", type := .title, id := some "abc" } with
        id := (match (none : Option String) with
          | some x => some x
          | none => match ({ label := "Old Name", type := .title, id := some "abc" : Field }).id with
            | some y => some y
            | none => (toPropertyDefinition
                { label := "New Name", type := .title, id := some "abc" }).id),
        name := if ["label"].contains "label"
          then some ({ label := "New Name", type := .title, id := some "abc" : Field }).label
          else none })] :=
  applySchemaChanges_modified_spec
    [("name", { label := "New Name", type := .title, id := some "abc" })]
    "name" { label := "Old Name", type := .title, id := some "abc" }
    { label := "New Name", type := .title, id := some "abc" }
    ["label"] none none
    { label := "New Name", type := .title, id := some "abc" } .merge
    (by decide) (by decide) (by decide)

/-- Whether a local value is a (string-)array in the modelled domain. -/
def Value.isStrArray : Value → Bool
  | .vStrList _ => true
  | _ => false

/-- C10: `dehydrateValue` is total for select and status fields — never the
`.map`-on-non-array `TypeError`, and a falsy value yields the explicit
null-selection payload — while for multi_select, relation and people it maps
over the value with no falsy guard: every (string-)array input yields a
defined payload, and `null`/`undefined` inputs reach the runtime type error,
which is unreachable only under the array precondition. -/
theorem dehydrateValue_totality_spec :
    (∀ (f : Field) (v : Value), f.type = .select →
      dehydrateValue f v ≠ .typeError ∧
      (jsFalsy v = true → dehydrateValue f v = .ok (.select none))) ∧
    (∀ (f : Field) (v : Value), f.type = .status →
      dehydrateValue f v ≠ .typeError ∧
      (jsFalsy v = true → dehydrateValue f v = .ok (.status none))) ∧
    (∀ (f : Field) (ss : List String), f.type = .multi_select →
      dehydrateValue f (.vStrList ss) =
        .ok (.multi_select (ss.map (fun k =>
          (mapGet (buildKeyToNameMap f.options) k).getD k)))) ∧
    (∀ (f : Field) (ss : List String), f.type = .relation →
      dehydrateValue f (.vStrList ss) = .ok (.relation ss false)) ∧
    (∀ (f : Field) (ss : List String), f.type = .people →
      dehydrateValue f (.vStrList ss) = .ok (.people ss)) ∧
    (∀ (f : Field) (v : Value),
      f.type = .multi_select ∨ f.type = .relation ∨ f.type = .people →
      (v = .vNull ∨ v = .vUndefined) → dehydrateValue f v = .typeError) ∧
    (∀ (f : Field) (v : Value),
      f.type = .multi_select ∨ f.type = .relation ∨ f.type = .people →
      v.isStrArray = true → dehydrateValue f v ≠ .typeError) := by
  refine ⟨?_, ?_, ?_, ?_, ?_, ?_, ?_⟩
  · intro f v hf
    constructor
    · simp only [dehydrateValue, hf]
      split
      · exact fun h => DehydrateResult.noConfusion h
      · exact fun h => DehydrateResult.noConfusion h
    · intro hfal
      simp [dehydrateValue, hf, hfal]
  · intro f v hf
    constructor
    · simp only [dehydrateValue, hf]
      split
      · exact fun h => DehydrateResult.noConfusion h
      · exact fun h => DehydrateResult.noConfusion h
    · intro hfal
      simp [dehydrateValue, hf, hfal]
  · intro f ss hf
    simp [dehydrateValue, hf]
  · intro f ss hf
    simp [dehydrateValue, hf]
  · intro f ss hf
    simp [dehydrateValue, hf]
  · intro f v hf hv
    rcases hf with hf | hf | hf <;> rcases hv with hv | hv <;>
      (subst hv; simp [dehydrateValue, hf])
  · intro f v hf hv
    match v, hv with
    | .vStrList ss, _ =>
      rcases hf with hf | hf | hf <;>
        (simp only [dehydrateValue, hf]; exact fun h => DehydrateResult.noConfusion h)

/-- C10 (witness): the totality clauses at concrete fields and values,
including the repo-test cases (falsy select → null selection; array inputs
for multi_select/relation/people; `null` reaching the type error). -/
theorem dehydrateValue_totality_spec_witness :
    (dehydrateValue { label := "Priority", type := .select } .vNull =
      .ok (.select none)) ∧
    (dehydrateValue { label := "Related", type := .relation }
      (.vStrList ["id-1", "id-2"]) = .ok (.relation ["id-1", "id-2"] false)) ∧
    (dehydrateValue { label := "Tags", type := .multi_select } .vNull = .typeError) := by
  refine ⟨?_, ?_, ?_⟩
  · exact (dehydrateValue_totality_spec.1 { label := "Priority", type := .select }
      .vNull rfl).2 rfl
  · exact dehydrateValue_totality_spec.2.2.2.1 { label := "Related", type := .relation }
      ["id-1", "id-2"] rfl
  · exact dehydrateValue_totality_spec.2.2.2.2.2.1
      { label := "Tags", type := .multi_select } .vNull (.inl rfl) (.inl rfl)

/-- The number coercion of the source is JS `Number` on non-number values
and the identity on numbers — which is `jsNumber` everywhere. -/
theorem match_num_eq_jsNumber (v : Value) :
    (match v with | .vNum n => some n | v => jsNumber v) = jsNumber v := by
  cases v <;> rfl

/-- C6: `buildUpsertFilter` fails with a named error for a key absent from
the schema and for the fixed unsupported type set (naming the offending
type); a missing data value becomes the empty string for text-equality
filters; each supported type maps to its equality-filter shape (title →
title equality, rich_text/email/phone_number/url → rich_text equality,
number/unique_id → numeric equality with best-effort coercion, checkbox →
boolean equality, select/status → name equality, relation → contains); and
the per-key filters combine as a bare filter for one key and a logical AND
in key-argument order otherwise. -/
theorem buildUpsertFilter_spec :
    (∀ (schema : Schema) (k : String) (data : List (String × Value)),
      schema.lookup k = none →
      buildUpsertFilter schema [k] data =
        .error ("Property \"" ++ k ++ "\" not found in schema.")) ∧
    (∀ (schema : Schema) (k : String) (data : List (String × Value)) (f : Field),
      schema.lookup k = some f → f.type ∈ UNSUPPORTED_TYPES →
      buildUpsertFilter schema [k] data = .error (unsupportedTypeMessage f.type)) ∧
    (∀ (schema : Schema) (k : String) (f : Field) (data : List (String × Value)),
      schema.lookup k = some f → data.lookup k = none →
      (f.type = .title → buildUpsertFilter schema [k] data = .ok (.titleEq f.label "")) ∧
      ((f.type = .rich_text ∨ f.type = .email ∨ f.type = .phone_number ∨ f.type = .url) →
        buildUpsertFilter schema [k] data = .ok (.richTextEq f.label ""))) ∧
    (∀ (schema : Schema) (k : String) (f : Field) (data : List (String × Value)) (v : Value),
      schema.lookup k = some f → data.lookup k = some v →
      (f.type = .title →
        buildUpsertFilter schema [k] data = .ok (.titleEq f.label (toFilterString v))) ∧
      ((f.type = .rich_text ∨ f.type = .email ∨ f.type = .phone_number ∨ f.type = .url) →
        buildUpsertFilter schema [k] data = .ok (.richTextEq f.label (toFilterString v))) ∧
      ((f.type = .number ∨ f.type = .unique_id) →
        buildUpsertFilter schema [k] data = .ok (.numberEq f.label (jsNumber v))) ∧
      (f.type = .checkbox →
        buildUpsertFilter schema [k] data = .ok (.checkboxEq f.label (jsBoolean v))) ∧
      (f.type = .select →
        buildUpsertFilter schema [k] data = .ok (.selectEq f.label (toFilterString v))) ∧
      (f.type = .status →
        buildUpsertFilter schema [k] data = .ok (.statusEq f.label (toFilterString v))) ∧
      (f.type = .relation →
        buildUpsertFilter schema [k] data =
          .ok (.relationContains f.label (toFilterString v)))) ∧
    (∀ (schema : Schema) (data : List (String × Value)) (keys : List String)
      (filters : List Filter),
      exceptMapM (buildOneFilter schema data) keys = .ok filters →
      buildUpsertFilter schema keys data =
        .ok (match filters with | [fl] => fl | fs => .andFilter fs)) ∧
    (∀ (schema : Schema) (data : List (String × Value)) (keys : List String) (e : String),
      exceptMapM (buildOneFilter schema data) keys = .error e →
      buildUpsertFilter schema keys data = .error e) := by
  refine ⟨?_, ?_, ?_, ?_, ?_, ?_⟩
  · intro schema k data hlook
    simp [buildUpsertFilter, exceptMapM, buildOneFilter, hlook]
  · intro schema k data f hlook hmem
    simp only [UNSUPPORTED_TYPES, List.mem_cons, List.not_mem_nil, or_false] at hmem
    rcases hmem with h|h|h|h|h|h|h|h|h|h <;>
      simp [buildUpsertFilter, exceptMapM, buildOneFilter, hlook, h, UNSUPPORTED_TYPES]
  · intro schema k f data hlook hdata
    constructor
    · intro ht
      simp [buildUpsertFilter, exceptMapM, buildOneFilter, hlook, hdata, ht,
        toFilterString]
    · intro ht
      rcases ht with h|h|h|h <;>
        simp [buildUpsertFilter, exceptMapM, buildOneFilter, hlook, hdata, h,
          toFilterString]
  · intro schema k f data v hlook hdata
    refine ⟨?_, ?_, ?_, ?_, ?_, ?_, ?_⟩
    · intro ht
      simp [buildUpsertFilter, exceptMapM, buildOneFilter, hlook, hdata, ht]
    · intro ht
      rcases ht with h|h|h|h <;>
        simp [buildUpsertFilter, exceptMapM, buildOneFilter, hlook, hdata, h]
    · intro ht
      rcases ht with h|h <;>
        simp [buildUpsertFilter, exceptMapM, buildOneFilter, hlook, hdata, h,
          match_num_eq_jsNumber]
    · intro ht
      simp [buildUpsertFilter, exceptMapM, buildOneFilter, hlook, hdata, ht]
    · intro ht
      simp [buildUpsertFilter, exceptMapM, buildOneFilter, hlook, hdata, ht]
    · intro ht
      simp [buildUpsertFilter, exceptMapM, buildOneFilter, hlook, hdata, ht]
    · intro ht
      simp [buildUpsertFilter, exceptMapM, buildOneFilter, hlook, hdata, ht]
  · intro schema data keys filters h
    simp [buildUpsertFilter, h]
  · intro schema data keys e h
    simp [buildUpsertFilter, h]

/-- C6 (witness): the spec scenario — `{name: title(Name), email:
email(Email)}` with both unique keys yields the AND of a title-equality and
a rich-text-equality filter, in key order — plus a named missing-key error,
a named unsupported-type error, and a missing value as empty string. -/
theorem buildUpsertFilter_spec_witness :
    (buildUpsertFilter
      [("name", { label := "Name", type := .title }),
       ("email", { label := "Email", type := .email })]
      ["name", "email"]
      [("name", .vStr "John"), ("email", .vStr "john@example.com")] =
      .ok (match [Filter.titleEq "Name" "John",
          Filter.richTextEq "Email" "john@example.com"] with
        | [fl] => fl
        | fs => .andFilter fs)) ∧
    (buildUpsertFilter [("name", { label := "Name", type := .title })] ["unknown"] [] =
      .error ("Property \"" ++ "unknown" ++ "\" not found in schema.")) ∧
    (buildUpsertFilter [("tags", { label := "Tags", type := .multi_select })] ["tags"]
      [("tags", .vStrList ["a", "b"])] =
      .error (unsupportedTypeMessage FieldType.multi_select)) ∧
    (buildUpsertFilter [("name", { label := "Name", type := .title })] ["name"] [] =
      .ok (.titleEq "Name" "")) := by
  refine ⟨?_, ?_, ?_, ?_⟩
  · exact buildUpsertFilter_spec.2.2.2.2.1
      [("name", { label := "Name", type := .title }),
       ("email", { label := "Email", type := .email })]
      [("name", .vStr "John"), ("email", .vStr "john@example.com")]
      ["name", "email"]
      [Filter.titleEq "Name" "John", Filter.richTextEq "Email" "john@example.com"]
      (by rfl)
  · exact buildUpsertFilter_spec.1 [("name", { label := "Name", type := .title })]
      "unknown" [] (by rfl)
  · exact buildUpsertFilter_spec.2.1 [("tags", { label := "Tags", type := .multi_select })]
      "tags" [("tags", .vStrList ["a", "b"])] { label := "Tags", type := .multi_select }
      (by rfl) (by decide)
  · exact (buildUpsertFilter_spec.2.2.1 [("name", { label := "Name", type := .title })]
      "name" { label := "Name", type := .title } [] (by rfl) (by rfl)).1 rfl

/-- When the key is fresh, `jsSet` is a plain append. -/
theorem jsSet_eq_append_of_fresh {α : Type} {m : List (String × α)} {k : String}
    (v : α) (h : m.any (fun p => p.1 == k) = false) : jsSet m k v = m ++ [(k, v)] := by
  unfold jsSet
  rw [if_neg (fun hh => by rw [h] at hh; exact Bool.false_ne_true hh)]

/-- The loop body of `hydrate`, named (identical to the inline fold body). -/
def hydrateStep (properties : List (String × PropValue))
    (result : List (String × Value)) (kf : String × Field) : List (String × Value) :=
  match properties.lookup kf.2.label with
  | none => result
  | some property =>
    match hydrateValue property kf.2 with
    | .vUndefined => result
    | v => jsSet result kf.1 v

/-- The per-key outcome of `hydrate` as the spec words it: `none` when the
remote property is absent or hydrates to `undefined`, else the hydrated
pair. -/
def hydrateSpecFn (properties : List (String × PropValue)) (kf : String × Field) :
    Option (String × Value) :=
  match properties.lookup kf.2.label with
  | none => none
  | some property =>
    match hydrateValue property kf.2 with
    | .vUndefined => none
    | v => some (kf.1, v)

/-- `hydrateStep` on a resolving label reduces to the hydration match. -/
theorem hydrateStep_eq_some {properties : List (String × PropValue)}
    {kf : String × Field} {property : PropValue}
    (h : properties.lookup kf.2.label = some property)
    (r : List (String × Value)) :
    hydrateStep properties r kf =
      match hydrateValue property kf.2 with
      | .vUndefined => r
      | v => jsSet r kf.1 v := by
  simp only [hydrateStep, h]

/-- `hydrateSpecFn` on a resolving label reduces to the hydration match. -/
theorem hydrateSpecFn_eq_some {properties : List (String × PropValue)}
    {kf : String × Field} {property : PropValue}
    (h : properties.lookup kf.2.label = some property) :
    hydrateSpecFn properties kf =
      match hydrateValue property kf.2 with
      | .vUndefined => none
      | v => some (kf.1, v) := by
  simp only [hydrateSpecFn, h]

/-- The fold of `hydrate`, against an accumulator whose keys avoid the
remaining schema keys, appends exactly the filter-mapped hydrations in
schema order. -/
theorem hydrate_foldl_eq (properties : List (String × PropValue)) :
    ∀ (l : List (String × Field)) (r : List (String × Value)),
      (∀ kf ∈ l, r.any (fun p => p.1 == kf.1) = false) →
      (l.map (fun kf => kf.1)).Nodup →
      l.foldl (hydrateStep properties) r =
        r ++ l.filterMap (hydrateSpecFn properties) := by
  intro l
  induction l with
  | nil => intro r _ _; simp
  | cons kf rest ih =>
    intro r hfresh hnodup
    rw [List.foldl_cons, List.filterMap_cons]
    have hfresh_head : r.any (fun p => p.1 == kf.1) = false :=
      hfresh kf (List.mem_cons_self kf rest)
    have hnodup_tail : (rest.map (fun kf => kf.1)).Nodup := by
      rw [List.map_cons, List.nodup_cons] at hnodup
      exact hnodup.2
    have hhead_notin : kf.1 ∉ rest.map (fun kf => kf.1) := by
      rw [List.map_cons, List.nodup_cons] at hnodup
      exact hnodup.1
    have hfresh_tail : ∀ kf' ∈ rest, r.any (fun p => p.1 == kf'.1) = false :=
      fun kf' h' => hfresh kf' (List.mem_cons_of_mem kf h')
    cases hlook : properties.lookup kf.2.label with
    | none =>
      rw [show hydrateStep properties r kf = r from by simp only [hydrateStep, hlook],
        show hydrateSpecFn properties kf = none from by simp only [hydrateSpecFn, hlook]]
      exact ih r hfresh_tail hnodup_tail
    | some property =>
      rw [hydrateStep_eq_some hlook, hydrateSpecFn_eq_some hlook]
      have hstep : ∀ v : Value,
          (∀ kf' ∈ rest, (r ++ [(kf.1, v)]).any (fun p => p.1 == kf'.1) = false) := by
        intro v kf' h'
        rw [List.any_append]
        have h1 : r.any (fun p => p.1 == kf'.1) = false := hfresh_tail kf' h'
        have h2 : (kf.1 == kf'.1) = false := by
          refine beq_eq_false_iff_ne.mpr (fun hh => hhead_notin ?_)
          rw [hh]
          exact List.mem_map_of_mem _ h'
        simp [h1, h2]
      cases hv : hydrateValue property kf.2 with
      | vUndefined => exact ih r hfresh_tail hnodup_tail
      | vStr s =>
        show List.foldl (hydrateStep properties) (jsSet r kf.1 (Value.vStr s)) rest =
          r ++ ((kf.1, Value.vStr s) :: List.filterMap (hydrateSpecFn properties) rest)
        rw [jsSet_eq_append_of_fresh _ hfresh_head, ih _ (hstep _) hnodup_tail,
          List.append_assoc]
        rfl
      | vNum n =>
        show List.foldl (hydrateStep properties) (jsSet r kf.1 (Value.vNum n)) rest =
          r ++ ((kf.1, Value.vNum n) :: List.filterMap (hydrateSpecFn properties) rest)
        rw [jsSet_eq_append_of_fresh _ hfresh_head, ih _ (hstep _) hnodup_tail,
          List.append_assoc]
        rfl
      | vBool b =>
        show List.foldl (hydrateStep properties) (jsSet r kf.1 (Value.vBool b)) rest =
          r ++ ((kf.1, Value.vBool b) :: List.filterMap (hydrateSpecFn properties) rest)
        rw [jsSet_eq_append_of_fresh _ hfresh_head, ih _ (hstep _) hnodup_tail,
          List.append_assoc]
        rfl
      | vNull =>
        show List.foldl (hydrateStep properties) (jsSet r kf.1 (Value.vNull)) rest =
          r ++ ((kf.1, Value.vNull) :: List.filterMap (hydrateSpecFn properties) rest)
        rw [jsSet_eq_append_of_fresh _ hfresh_head, ih _ (hstep _) hnodup_tail,
          List.append_assoc]
        rfl
      | vStrList ss =>
        show List.foldl (hydrateStep properties) (jsSet r kf.1 (Value.vStrList ss)) rest =
          r ++ ((kf.1, Value.vStrList ss) :: List.filterMap (hydrateSpecFn properties) rest)
        rw [jsSet_eq_append_of_fresh _ hfresh_head, ih _ (hstep _) hnodup_tail,
          List.append_assoc]
        rfl
      | vRich spans =>
        show List.foldl (hydrateStep properties) (jsSet r kf.1 (Value.vRich spans)) rest =
          r ++ ((kf.1, Value.vRich spans) :: List.filterMap (hydrateSpecFn properties) rest)
        rw [jsSet_eq_append_of_fresh _ hfresh_head, ih _ (hstep _) hnodup_tail,
          List.append_assoc]
        rfl
      | vDate d =>
        show List.foldl (hydrateStep properties) (jsSet r kf.1 (Value.vDate d)) rest =
          r ++ ((kf.1, Value.vDate d) :: List.filterMap (hydrateSpecFn properties) rest)
        rw [jsSet_eq_append_of_fresh _ hfresh_head, ih _ (hstep _) hnodup_tail,
          List.append_assoc]
        rfl
      | vUrl href =>
        show List.foldl (hydrateStep properties) (jsSet r kf.1 (Value.vUrl href)) rest =
          r ++ ((kf.1, Value.vUrl href) :: List.filterMap (hydrateSpecFn properties) rest)
        rw [jsSet_eq_append_of_fresh _ hfresh_head, ih _ (hstep _) hnodup_tail,
          List.append_assoc]
        rfl
      | vRawList rs =>
        show List.foldl (hydrateStep properties) (jsSet r kf.1 (Value.vRawList rs)) rest =
          r ++ ((kf.1, Value.vRawList rs) :: List.filterMap (hydrateSpecFn properties) rest)
        rw [jsSet_eq_append_of_fresh _ hfresh_head, ih _ (hstep _) hnodup_tail,
          List.append_assoc]
        rfl

/-- C8: `hydrate` iterates the schema's keys in schema order, looks each
remote property up by the field's label, and omits a key entirely — no null
placeholder — when the property is absent or `hydrateValue` yields
`undefined`; every other key maps to its hydrated value. Stated as the
filter-map characterization of the result. -/
theorem hydrate_spec (schema : Schema) (properties : List (String × PropValue))
    (hk : (schemaKeys schema).Nodup) :
    hydrate schema properties = schema.filterMap (fun kf =>
      match properties.lookup kf.2.label with
      | none => none
      | some property =>
        match hydrateValue property kf.2 with
        | .vUndefined => none
        | v => some (kf.1, v)) := by
  show schema.foldl (hydrateStep properties) [] =
    schema.filterMap (hydrateSpecFn properties)
  rw [hydrate_foldl_eq properties schema [] (by intro kf _; rfl) hk]
  rfl

/-- C8 (witness): the characterization at a concrete schema with one
present property, one absent property, and one hydrating to `undefined`
(an empty select), whose keys are dropped without a placeholder. -/
theorem hydrate_spec_witness :
    hydrate
      [("name", { label := "Name", type := .title }),
       ("missing", { label := "Absent", type := .rich_text }),
       ("empty", { label := "Choice", type := .select })]
      [("Name", .title [⟨"My Item", "My Item"⟩]), ("Choice", .select none)] =
    [("name", { label := "Name", type := .title : Field }),
     ("missing", { label := "Absent", type := .rich_text : Field }),
     ("empty", { label := "Choice", type := .select : Field })].filterMap (fun kf =>
      match [("Name", PropValue.title [⟨"My Item", "My Item"⟩]),
          ("Choice", PropValue.select none)].lookup kf.2.label with
      | none => none
      | some property =>
        match hydrateValue property kf.2 with
        | .vUndefined => none
        | v => some (kf.1, v)) :=
  hydrate_spec
    [("name", { label := "Name", type := .title }),
     ("missing", { label := "Absent", type := .rich_text }),
     ("empty", { label := "Choice", type := .select })]
    [("Name", .title [⟨"My Item", "My Item"⟩]), ("Choice", .select none)]
    (by decide)

section RoundTripLemmas

/-- With `Nodup` map keys, `mapGet` resolves a member pair. -/
theorem mapGet_eq_of_mem_nodup {l : List (String × String)} {k n : String}
    (hmem : (k, n) ∈ l) (hk : (l.map (fun p => p.1)).Nodup) :
    mapGet l k = some n := by
  unfold mapGet
  rw [find?_eq_of_unique (x := (k, n)) (List.mem_reverse.mpr hmem) (by simp)]
  · rfl
  · intro y hy hpy
    simp only [beq_iff_eq] at hpy
    exact List.inj_on_of_nodup_map hk (List.mem_reverse.mp hy) hmem hpy

/-- The identity vocabulary (bare name list) maps every string to itself
after the fallback. -/
theorem mapGet_diag (names : List String) (s : String) :
    (mapGet (names.map (fun n => (n, n))) s).getD s = s := by
  unfold mapGet
  cases hfind : (names.map (fun n => (n, n))).reverse.find? (fun p => p.1 == s) with
  | none => rfl
  | some m =>
    have hmem : m ∈ (names.map (fun n => (n, n))).reverse := List.mem_of_find?_eq_some hfind
    have hm : m.2 = m.1 := by
      rw [List.mem_reverse, List.mem_map] at hmem
      obtain ⟨a, _, ha⟩ := hmem
      rw [← ha]
    have hs : m.1 = s := by simpa using List.find?_some hfind
    simp [hm, hs]

/-- The reverse (name → key) select map is the transposed forward map. -/
theorem buildNameToKeyMap_eq_swap (options : Option SelectOptions) :
    buildNameToKeyMap options =
      (buildKeyToNameMap options).map (fun p => (p.2, p.1)) := by
  match options with
  | none => rfl
  | some (.arr names) =>
    simp only [buildNameToKeyMap, buildKeyToNameMap]
    rw [List.map_map]
    rfl
  | some (.record entries) =>
    simp only [buildNameToKeyMap, buildKeyToNameMap]
    rw [List.map_map]
    rfl

/-- The reverse (name → key) status map is the transposed forward map. -/
theorem buildStatusNameToKeyMap_eq_swap (groups : Option (List (String × StatusGroup))) :
    buildStatusNameToKeyMap groups =
      (buildStatusKeyToNameMap groups).map (fun p => (p.2, p.1)) := by
  match groups with
  | none => rfl
  | some gs =>
    simp only [buildStatusNameToKeyMap, buildStatusKeyToNameMap]
    induction gs with
    | nil => rfl
    | cons g rest ih =>
      rw [List.flatMap_cons, List.flatMap_cons, List.map_append,
        buildNameToKeyMap_eq_swap (some g.2.options), ih]

/-- A markdown-plain string converts to a single self-describing span. -/
theorem toRichText_plain {s : String} (h : isMarkdownPlain s = true) :
    toRichText (.vStr s) = [⟨s, s⟩] := by
  by_cases hs : s = ""
  · subst hs
    rfl
  · simp [toRichText, fromMarkdownModel, hs, h]

/-- Joining a single span yields its plain text. -/
theorem joinPlainText_single (it : RichTextItem) : joinPlainText [it] = it.plain_text := by
  show String.join [it.plain_text] = it.plain_text
  simp [String.join]

end RoundTripLemmas

/-- The hydrate-only field types: `dehydrateValue` must omit them from the
payload rather than raise. -/
def hydrateOnlyTypes : List FieldType :=
  [.formula, .rollup, .created_time, .created_by, .last_edited_time,
   .last_edited_by, .unique_id, .files]

/-- JS loose equality (`==`) restricted to the cases the round-trip
exercises: structural equality plus `null == undefined`. -/
def jsLooseEq (a b : Value) : Prop :=
  a = b ∨ (a = .vNull ∧ b = .vUndefined) ∨ (a = .vUndefined ∧ b = .vNull)

/-- One local value round-trips through the codec: the dehydrate side
builds a payload and hydrating it back is `==` to the input. -/
def roundTrips (field : Field) (v : Value) : Prop :=
  ∃ p, dehydrateValue field v = .ok p ∧ jsLooseEq (hydrateValue p field) v

/-- Key → name → key through a well-formed vocabulary (distinct keys and
distinct display names) is the identity, fallbacks included. -/
theorem select_key_roundtrip {k2n : List (String × String)} {k : String}
    (hkeys : (k2n.map (fun p => p.1)).Nodup)
    (hnames : (k2n.map (fun p => p.2)).Nodup)
    (hex : ∃ n, (k, n) ∈ k2n) :
    (mapGet (k2n.map (fun p => (p.2, p.1))) ((mapGet k2n k).getD k)).getD
      ((mapGet k2n k).getD k) = k := by
  obtain ⟨n, hmem⟩ := hex
  rw [mapGet_eq_of_mem_nodup hmem hkeys]
  have hmem' : (n, k) ∈ k2n.map (fun p => (p.2, p.1)) := List.mem_map_of_mem _ hmem
  have hkeys' : ((k2n.map (fun p => (p.2, p.1))).map (fun p => p.1)).Nodup := by
    rw [List.map_map]
    exact hnames
  rw [show (some n).getD k = n from rfl, mapGet_eq_of_mem_nodup hmem' hkeys']
  rfl

/-- C2: per supported field type, `hydrateValue(dehydrateValue(field, v),
field) == v` (JS loose equality, equating `null` and `undefined`) for the
representative values of that type including its null/empty case — text
types for markdown-plain strings, scalars structurally, select/status for
declared keys of well-formed vocabularies (distinct keys, distinct nonempty
display names) or arbitrary nonempty strings when the vocabulary is a bare
list or absent, multi-select element-wise, relation/people as id lists —
and for every hydrate-only type `dehydrateValue` returns `undefined` (omit
from payload), never an error. -/
theorem hydrateValue_dehydrateValue_roundtrip :
    (∀ (f : Field) (s : String), f.type = .title → isMarkdownPlain s = true →
      roundTrips f (.vStr s)) ∧
    (∀ (f : Field) (s : String), f.type = .rich_text → isMarkdownPlain s = true →
      roundTrips f (.vStr s)) ∧
    (∀ f : Field, f.type = .number →
      (∀ n : Int, roundTrips f (.vNum n)) ∧ roundTrips f .vNull) ∧
    (∀ (f : Field) (b : Bool), f.type = .checkbox → roundTrips f (.vBool b)) ∧
    (∀ f : Field, (f.type = .url ∨ f.type = .email ∨ f.type = .phone_number) →
      (∀ s : String, roundTrips f (.vStr s)) ∧ roundTrips f .vNull) ∧
    (∀ (f : Field) (d : DateValue), f.type = .date →
      roundTrips f (.vDate d) ∧ roundTrips f .vNull) ∧
    (∀ f : Field, f.type = .select →
      roundTrips f .vNull ∧
      (f.options = none → ∀ s : String, s ≠ "" → roundTrips f (.vStr s)) ∧
      (∀ names, f.options = some (.arr names) → ∀ s : String, s ≠ "" →
        roundTrips f (.vStr s)) ∧
      (∀ opts k n, f.options = some opts →
        (k, n) ∈ buildKeyToNameMap (some opts) →
        ((buildKeyToNameMap (some opts)).map (fun p => p.1)).Nodup →
        ((buildKeyToNameMap (some opts)).map (fun p => p.2)).Nodup →
        k ≠ "" → n ≠ "" → roundTrips f (.vStr k))) ∧
    (∀ f : Field, f.type = .multi_select →
      (f.options = none → ∀ ks : List String, roundTrips f (.vStrList ks)) ∧
      (∀ names, f.options = some (.arr names) → ∀ ks : List String,
        roundTrips f (.vStrList ks)) ∧
      (∀ opts (ks : List String), f.options = some opts →
        ((buildKeyToNameMap (some opts)).map (fun p => p.1)).Nodup →
        ((buildKeyToNameMap (some opts)).map (fun p => p.2)).Nodup →
        (∀ k ∈ ks, ∃ n, (k, n) ∈ buildKeyToNameMap (some opts)) →
        roundTrips f (.vStrList ks))) ∧
    (∀ f : Field, f.type = .status →
      roundTrips f .vNull ∧
      (f.groups = none → ∀ s : String, s ≠ "" → roundTrips f (.vStr s)) ∧
      (∀ gs k n, f.groups = some gs →
        (k, n) ∈ buildStatusKeyToNameMap (some gs) →
        ((buildStatusKeyToNameMap (some gs)).map (fun p => p.1)).Nodup →
        ((buildStatusKeyToNameMap (some gs)).map (fun p => p.2)).Nodup →
        k ≠ "" → n ≠ "" → roundTrips f (.vStr k))) ∧
    (∀ (f : Field) (ids : List String), f.type = .relation →
      roundTrips f (.vStrList ids)) ∧
    (∀ (f : Field) (ids : List String), f.type = .people →
      roundTrips f (.vStrList ids)) ∧
    (∀ (f : Field) (v : Value), f.type ∈ hydrateOnlyTypes →
      dehydrateValue f v = .undefv) := by
  refine ⟨?_, ?_, ?_, ?_, ?_, ?_, ?_, ?_, ?_, ?_, ?_, ?_⟩
  · intro f s hf hplain
    refine ⟨.title [⟨s, s⟩], ?_, Or.inl ?_⟩
    · simp [dehydrateValue, hf, toRichText_plain hplain]
    · show Value.vStr (joinPlainText [⟨s, s⟩]) = Value.vStr s
      rw [joinPlainText_single]
  · intro f s hf hplain
    refine ⟨.rich_text [⟨s, s⟩], ?_, Or.inl ?_⟩
    · simp [dehydrateValue, hf, toRichText_plain hplain]
    · show Value.vStr (joinPlainText [⟨s, s⟩]) = Value.vStr s
      rw [joinPlainText_single]
  · intro f hf
    constructor
    · intro n
      exact ⟨.number (some n), by simp [dehydrateValue, hf], Or.inl rfl⟩
    · exact ⟨.number none, by simp [dehydrateValue, hf], Or.inl rfl⟩
  · intro f b hf
    exact ⟨.checkbox b, by simp [dehydrateValue, hf], Or.inl rfl⟩
  · intro f hf
    rcases hf with hf | hf | hf
    · exact ⟨fun s => ⟨.url (some s), by simp [dehydrateValue, hf], Or.inl rfl⟩,
        ⟨.url none, by simp [dehydrateValue, hf], Or.inl rfl⟩⟩
    · exact ⟨fun s => ⟨.email (some s), by simp [dehydrateValue, hf], Or.inl rfl⟩,
        ⟨.email none, by simp [dehydrateValue, hf], Or.inl rfl⟩⟩
    · exact ⟨fun s => ⟨.phone_number (some s), by simp [dehydrateValue, hf], Or.inl rfl⟩,
        ⟨.phone_number none, by simp [dehydrateValue, hf], Or.inl rfl⟩⟩
  · intro f d hf
    exact ⟨⟨.date (some d), by simp [dehydrateValue, hf], Or.inl rfl⟩,
      ⟨.date none, by simp [dehydrateValue, hf], Or.inl rfl⟩⟩
  · intro f hf
    refine ⟨?_, ?_, ?_, ?_⟩
    · exact ⟨.select none, by simp [dehydrateValue, hf, jsFalsy],
        Or.inr (Or.inr ⟨rfl, rfl⟩)⟩
    · intro hopt s hs
      refine ⟨.select (some s), ?_, Or.inl ?_⟩
      · simp [dehydrateValue, hf, jsFalsy, hs, hopt, buildKeyToNameMap, mapGet]
      · simp [hydrateValue, hf, hs, hopt]
    · intro names hopt s hs
      refine ⟨.select (some s), ?_, Or.inl ?_⟩
      · simp only [dehydrateValue, hf, jsFalsy]
        rw [if_neg (by simpa using hs), hopt]
        show DehydrateResult.ok (.select (some
          ((mapGet (buildKeyToNameMap (some (.arr names))) s).getD s))) = _
        rw [show buildKeyToNameMap (some (.arr names)) =
          names.map (fun n => (n, n)) from rfl, mapGet_diag]
      · simp only [hydrateValue]
        rw [if_neg hs, if_pos hf, hopt]
        show Value.vStr ((mapGet (buildNameToKeyMap (some (.arr names))) s).getD s) =
          Value.vStr s
        rw [show buildNameToKeyMap (some (.arr names)) =
          names.map (fun n => (n, n)) from rfl, mapGet_diag]
    · intro opts k n hopt hmem hkeys hnames hk hn
      refine ⟨.select (some n), ?_, Or.inl ?_⟩
      · simp only [dehydrateValue, hf, jsFalsy]
        rw [if_neg (by simpa using hk), hopt]
        show DehydrateResult.ok (.select (some
          ((mapGet (buildKeyToNameMap (some opts)) k).getD k))) = _
        rw [mapGet_eq_of_mem_nodup hmem hkeys]
        rfl
      · simp only [hydrateValue]
        rw [if_neg hn, if_pos hf, hopt]
        show Value.vStr ((mapGet (buildNameToKeyMap (some opts)) n).getD n) =
          Value.vStr k
        rw [buildNameToKeyMap_eq_swap]
        have hmem' : (n, k) ∈ (buildKeyToNameMap (some opts)).map (fun p => (p.2, p.1)) :=
          List.mem_map_of_mem _ hmem
        have hkeys' : (((buildKeyToNameMap (some opts)).map
            (fun p => (p.2, p.1))).map (fun p => p.1)).Nodup := by
          rw [List.map_map]
          exact hnames
        rw [mapGet_eq_of_mem_nodup hmem' hkeys']
        rfl
  · intro f hf
    refine ⟨?_, ?_, ?_⟩
    · intro hopt ks
      refine ⟨.multi_select ks, ?_, Or.inl ?_⟩
      · simp [dehydrateValue, hf, hopt, buildKeyToNameMap, mapGet]
      · simp [hydrateValue, hf, hopt]
    · intro names hopt ks
      refine ⟨.multi_select ks, ?_, Or.inl ?_⟩
      · simp only [dehydrateValue, hf]
        rw [hopt]
        show DehydrateResult.ok (.multi_select (ks.map (fun k =>
          (mapGet (buildKeyToNameMap (some (.arr names))) k).getD k))) = _
        rw [show buildKeyToNameMap (some (.arr names)) =
          names.map (fun n => (n, n)) from rfl]
        rw [show ks.map (fun k => (mapGet (names.map (fun n => (n, n))) k).getD k) = ks from
          List.map_congr_left (fun k _ => mapGet_diag names k) |>.trans (List.map_id ks)]
      · simp only [hydrateValue]
        rw [if_pos hf, hopt]
        show Value.vStrList (ks.map (fun k =>
          (mapGet (buildNameToKeyMap (some (.arr names))) k).getD k)) = Value.vStrList ks
        rw [show buildNameToKeyMap (some (.arr names)) =
          names.map (fun n => (n, n)) from rfl]
        rw [show ks.map (fun k => (mapGet (names.map (fun n => (n, n))) k).getD k) = ks from
          List.map_congr_left (fun k _ => mapGet_diag names k) |>.trans (List.map_id ks)]
    · intro opts ks hopt hkeys hnames hdecl
      refine ⟨.multi_select (ks.map (fun k =>
        (mapGet (buildKeyToNameMap (some opts)) k).getD k)), ?_, Or.inl ?_⟩
      · simp only [dehydrateValue, hf]
        rw [hopt]
      · simp only [hydrateValue]
        rw [if_pos hf, hopt]
        show Value.vStrList ((ks.map (fun k =>
            (mapGet (buildKeyToNameMap (some opts)) k).getD k)).map (fun nm =>
            (mapGet (buildNameToKeyMap (some opts)) nm).getD nm)) = Value.vStrList ks
        rw [List.map_map, buildNameToKeyMap_eq_swap]
        congr 1
        refine (List.map_congr_left ?_).trans (List.map_id ks)
        intro k hkmem
        exact select_key_roundtrip hkeys hnames (hdecl k hkmem)
  · intro f hf
    refine ⟨?_, ?_, ?_⟩
    · exact ⟨.status none, by simp [dehydrateValue, hf, jsFalsy],
        Or.inr (Or.inr ⟨rfl, rfl⟩)⟩
    · intro hgrp s hs
      refine ⟨.status (some s), ?_, Or.inl ?_⟩
      · simp [dehydrateValue, hf, jsFalsy, hs, hgrp, buildStatusKeyToNameMap, mapGet]
      · simp [hydrateValue, hf, hs, hgrp]
    · intro gs k n hgrp hmem hkeys hnames hk hn
      refine ⟨.status (some n), ?_, Or.inl ?_⟩
      · simp only [dehydrateValue, hf, jsFalsy]
        rw [if_neg (by simpa using hk), hgrp]
        show DehydrateResult.ok (.status (some
          ((mapGet (buildStatusKeyToNameMap (some gs)) k).getD k))) = _
        rw [mapGet_eq_of_mem_nodup hmem hkeys]
        rfl
      · simp only [hydrateValue]
        rw [if_neg hn, if_pos hf, hgrp]
        show Value.vStr ((mapGet (buildStatusNameToKeyMap (some gs)) n).getD n) =
          Value.vStr k
        rw [buildStatusNameToKeyMap_eq_swap]
        have hmem' : (n, k) ∈ (buildStatusKeyToNameMap (some gs)).map
            (fun p => (p.2, p.1)) := List.mem_map_of_mem _ hmem
        have hkeys' : (((buildStatusKeyToNameMap (some gs)).map
            (fun p => (p.2, p.1))).map (fun p => p.1)).Nodup := by
          rw [List.map_map]
          exact hnames
        rw [mapGet_eq_of_mem_nodup hmem' hkeys']
        rfl
  · intro f ids hf
    exact ⟨.relation ids false, by simp [dehydrateValue, hf], Or.inl rfl⟩
  · intro f ids hf
    exact ⟨.people ids, by simp [dehydrateValue, hf], Or.inl rfl⟩
  · intro f v hf
    simp only [hydrateOnlyTypes, List.mem_cons, List.not_mem_nil, or_false] at hf
    rcases hf with h|h|h|h|h|h|h|h <;> simp [dehydrateValue, h]

/-- A concrete select vocabulary used by the round-trip witness. -/
def prioritySelectOptions : SelectOptions :=
  .record [("low", .str "Low Priority"), ("high", .str "High Priority")]

/-- A concrete select field used by the round-trip witness. -/
def prioritySelectField : Field :=
  { label := "Priority", type := .select, options := some prioritySelectOptions }

/-- C2 (witness): the round-trip theorem at concrete representatives — a
plain title string, the number null case, a declared select key through a
record vocabulary, a relation id list, and a hydrate-only formula field
dehydrating to `undefined`. -/
theorem hydrateValue_dehydrateValue_roundtrip_witness :
    roundTrips { label := "Name", type := .title } (.vStr "Hello World") ∧
    roundTrips { label := "Count", type := .number } .vNull ∧
    roundTrips prioritySelectField (.vStr "low") ∧
    roundTrips { label := "Related", type := .relation } (.vStrList ["id-1", "id-2"]) ∧
    dehydrateValue { label := "Calc", type := .formula, expression := some "1+1" }
      (.vStr "anything") = .undefv := by
  refine ⟨?_, ?_, ?_, ?_, ?_⟩
  · exact hydrateValue_dehydrateValue_roundtrip.1 _ "Hello World" rfl (by decide)
  · exact (hydrateValue_dehydrateValue_roundtrip.2.2.1 _ rfl).2
  · exact (hydrateValue_dehydrateValue_roundtrip.2.2.2.2.2.2.1 prioritySelectField rfl).2.2.2
      prioritySelectOptions
      "low" "Low Priority" rfl (by decide) (by decide) (by decide) (by decide) (by decide)
  · exact hydrateValue_dehydrateValue_roundtrip.2.2.2.2.2.2.2.2.2.1 _ ["id-1", "id-2"] rfl
  · exact hydrateValue_dehydrateValue_roundtrip.2.2.2.2.2.2.2.2.2.2.2 _ (.vStr "anything")
      (by decide)

section MatcherEquivalence

/-- At most one element matches an attribute whose `filterMap` image is
`Nodup`. -/
theorem length_filter_le_one_of_nodup_filterMap {α β : Type} [DecidableEq β]
    {l : List α} {f : α → Option β} (h : (l.filterMap f).Nodup) (y : β) :
    (l.filter (fun x => f x == some y)).length ≤ 1 := by
  induction l with
  | nil => simp
  | cons a as ih =>
    cases hfa : f a with
    | none =>
      have htail : (as.filterMap f).Nodup := by
        simpa [List.filterMap_cons, hfa] using h
      rw [List.filter_cons]
      have hpa : (f a == some y) = false := by simp [hfa]
      simp only [hpa, Bool.false_eq_true, if_false]
      exact ih htail
    | some b =>
      rw [List.filterMap_cons, hfa, List.nodup_cons] at h
      rw [List.filter_cons]
      by_cases hby : b = y
      · subst hby
        have hpa : (f a == some b) = true := by simp [hfa]
        simp only [hpa, if_true]
        have hnil : as.filter (fun x => f x == some b) = [] := by
          apply List.filter_eq_nil_iff.mpr
          intro x hx hpx
          simp only [beq_iff_eq] at hpx
          exact h.1 (List.mem_filterMap.mpr ⟨x, hx, hpx⟩)
        rw [hnil]
        simp
      · have hpa : (f a == some y) = false := by simp [hfa, hby]
        simp only [hpa, Bool.false_eq_true, if_false]
        exact ih h.2

/-- The last-set-wins map lookup filtered by an extra test agrees with a
single forward scan when at most one element carries the attribute. -/
theorem code_lookup_eq_spec {α : Type} {l : List α} {p q : α → Bool}
    (hu : (l.filter p).length ≤ 1) :
    (match l.reverse.find? p with
     | some m => if q m = true then some m else none
     | none => none) = l.find? (fun x => p x && q x) := by
  cases hfp : l.filter p with
  | nil =>
    have hnone : ∀ x ∈ l, p x = false := by
      intro x hx
      by_cases hpx : p x = true
      · exfalso
        have : x ∈ l.filter p := List.mem_filter.mpr ⟨hx, hpx⟩
        rw [hfp] at this
        cases this
      · simpa using hpx
    have h1 : l.reverse.find? p = none := by
      apply List.find?_eq_none.mpr
      intro x hx
      simp [hnone x (List.mem_reverse.mp hx)]
    have h2 : l.find? (fun x => p x && q x) = none := by
      apply List.find?_eq_none.mpr
      intro x hx
      simp [hnone x hx]
    rw [h1, h2]
  | cons x0 tail =>
    cases tail with
    | cons x1 rest => exfalso; rw [hfp] at hu; simp at hu
    | nil =>
      have hx0 : x0 ∈ l.filter p := by rw [hfp]; exact List.mem_cons_self x0 []
      obtain ⟨hx0mem, hx0p⟩ := List.mem_filter.mp hx0
      have huniq : ∀ y ∈ l, p y = true → y = x0 := by
        intro y hy hpy
        have : y ∈ l.filter p := List.mem_filter.mpr ⟨hy, hpy⟩
        rw [hfp] at this
        simpa using this
      have hrev : l.reverse.find? p = some x0 :=
        find?_eq_of_unique (List.mem_reverse.mpr hx0mem) hx0p
          (fun y hy hpy => huniq y (List.mem_reverse.mp hy) hpy)
      rw [hrev]
      show (if q x0 = true then some x0 else none) = l.find? (fun x => p x && q x)
      by_cases hq : q x0 = true
      · rw [if_pos hq]
        exact (find?_eq_of_unique hx0mem (by simp [hx0p, hq])
          (fun y hy hpy => huniq y hy (by simpa using And.left (by simpa using hpy : p y = true ∧ q y = true)))).symm
      · rw [if_neg hq]
        refine (List.find?_eq_none.mpr ?_).symm
        intro y hy
        by_cases hpy : p y = true
        · have hyx : y = x0 := huniq y hy hpy
          subst hyx
          simp [hpy, hq]
        · simp [Bool.eq_false_iff.mpr hpy]

/-- Flip of the consumed check between the two matcher styles. -/
theorem consumed_if_flip {c : List String} (m : String × Field) :
    (if m.1 ∈ c then (none : Option (String × Field)) else some m) =
      (if (!c.contains m.1) = true then some m else none) := by
  by_cases hm : m.1 ∈ c
  · rw [if_pos hm, if_neg]
    simp [hm]
  · rw [if_neg hm, if_pos]
    simp [hm]

/-- A `filterMap` that always succeeds is a `map`. -/
theorem filterMap_some_eq_map {α β : Type} (g : α → β) (l : List α) :
    l.filterMap (fun x => some (g x)) = l.map g := by
  induction l with
  | nil => rfl
  | cons a as ih => simp [List.filterMap_cons, ih]

/-- `BEq` on `Option` restricted to `some` is `BEq` on the payloads. -/
theorem some_beq_some {α : Type} [DecidableEq α] (a b : α) :
    (some a == some b) = (a == b) := by
  by_cases h : a = b
  · subst h
    simp
  · simp [h]

/-- The by-id priority agrees with its literal-specification scan when ids
are pairwise distinct. -/
theorem matchById_eq_spec {S : Schema} (hi : (schemaIds S).Nodup)
    (c : List String) (f : Field) :
    matchById S c f =
      (match f.id with
       | some i =>
         if i = "" then none
         else S.find? (fun kf => kf.2.id == some i && !c.contains kf.1)
       | none => none) := by
  unfold matchById
  cases f.id with
  | none => rfl
  | some i =>
    show (if i = "" then none
      else
        match fromById S i with
        | some m => if m.1 ∈ c then none else some m
        | none => none) =
      (if i = "" then none
      else S.find? (fun kf => kf.2.id == some i && !c.contains kf.1))
    by_cases hie : i = ""
    · rw [if_pos hie, if_pos hie]
    · rw [if_neg hie, if_neg hie]
      rw [← code_lookup_eq_spec (q := fun m => !c.contains m.1)
        (length_filter_le_one_of_nodup_filterMap hi i)]
      unfold fromById
      cases S.reverse.find? (fun kf => kf.2.id == some i) with
      | none => rfl
      | some m => exact consumed_if_flip m

/-- The by-key priority agrees with its literal-specification scan when
keys are pairwise distinct. -/
theorem matchByKey_eq_spec {S : Schema} (hk : (schemaKeys S).Nodup)
    (c : List String) (k : String) :
    matchByKey S c k = S.find? (fun kf => kf.1 == k && !c.contains kf.1) := by
  have hu : (S.filter (fun kf => kf.1 == k)).length ≤ 1 := by
    have hknodup : (S.filterMap (fun kf => some kf.1)).Nodup := by
      rw [filterMap_some_eq_map]
      exact hk
    have h0 := length_filter_le_one_of_nodup_filterMap hknodup k
    have hcong : S.filter (fun x => some x.1 == some k) =
        S.filter (fun kf => kf.1 == k) :=
      List.filter_congr (fun x _ => some_beq_some x.1 k)
    rw [hcong] at h0
    exact h0
  rw [← code_lookup_eq_spec (q := fun m => !c.contains m.1) hu]
  unfold matchByKey fromByKey
  cases hfind : S.reverse.find? (fun kf => kf.1 == k) with
  | none => rfl
  | some m =>
    have hk' : m.1 = k := by simpa using List.find?_some hfind
    show (if k ∈ c then none else some (k, m.2)) =
      (if (!c.contains m.1) = true then some m else none)
    rw [← hk']
    show (if m.1 ∈ c then none else some m) =
      (if (!c.contains m.1) = true then some m else none)
    exact consumed_if_flip m

/-- The by-label priority agrees with its literal-specification scan when
labels are pairwise distinct. -/
theorem matchByLabel_eq_spec {S : Schema}
    (hl : (S.map (fun kf => kf.2.label)).Nodup) (c : List String) (f : Field) :
    matchByLabel S c f =
      S.find? (fun kf => kf.2.label == f.label && !c.contains kf.1) := by
  have hu : (S.filter (fun kf => kf.2.label == f.label)).length ≤ 1 := by
    have hlnodup : (S.filterMap (fun kf => some kf.2.label)).Nodup := by
      rw [filterMap_some_eq_map]
      exact hl
    have h0 := length_filter_le_one_of_nodup_filterMap hlnodup f.label
    have hcong : S.filter (fun x => some x.2.label == some f.label) =
        S.filter (fun kf => kf.2.label == f.label) :=
      List.filter_congr (fun x _ => some_beq_some x.2.label f.label)
    rw [hcong] at h0
    exact h0
  rw [← code_lookup_eq_spec (q := fun m => !c.contains m.1) hu]
  unfold matchByLabel fromByLabel
  cases S.reverse.find? (fun kf => kf.2.label == f.label) with
  | none => rfl
  | some m => exact consumed_if_flip m

/-- The by-singleton-type priority agrees with its literal-specification
scan when the schema respects the singleton-type invariant. -/
theorem matchByType_eq_spec {S : Schema}
    (ht : ∀ t ∈ SINGLETON_TYPES, (S.filter (fun kf => kf.2.type == t)).length ≤ 1)
    (c : List String) (f : Field) :
    matchByType S c f =
      (if f.type ∈ SINGLETON_TYPES then
        S.find? (fun kf => kf.2.type == f.type && !c.contains kf.1)
      else none) := by
  unfold matchByType
  by_cases hmem : f.type ∈ SINGLETON_TYPES
  · rw [if_pos hmem, if_pos hmem]
    unfold fromByType
    rw [← code_lookup_eq_spec (q := fun m => !c.contains m.1) (ht f.type hmem)]
    cases S.reverse.find? (fun kf => kf.2.type == f.type) with
    | none => rfl
    | some m => exact consumed_if_flip m
  · rw [if_neg hmem, if_neg hmem]

/-- Pointwise equality of the implementation matcher and the
literal-specification matcher under the uniqueness hypotheses. -/
theorem findMatch_eq_specFindMatch {S : Schema}
    (hk : (schemaKeys S).Nodup)
    (hl : (S.map (fun kf => kf.2.label)).Nodup)
    (hi : (schemaIds S).Nodup)
    (ht : ∀ t ∈ SINGLETON_TYPES, (S.filter (fun kf => kf.2.type == t)).length ≤ 1) :
    ∀ c k f, findMatch S c k f = specFindMatch S c k f := by
  intro c k f
  unfold findMatch specFindMatch
  rw [matchById_eq_spec hi c f, matchByKey_eq_spec hk c k,
    matchByLabel_eq_spec hl c f, matchByType_eq_spec ht c f]

/-- The diff loop only consults its matcher, so pointwise-equal matchers
give equal loops. -/
theorem diffGoWith_congr
    {m1 m2 : List String → String → Field → Option (String × Field)}
    (h : ∀ c k f, m1 c k f = m2 c k f) :
    ∀ entries consumed, diffGoWith m1 entries consumed = diffGoWith m2 entries consumed := by
  intro entries
  induction entries with
  | nil => intro c; rfl
  | cons kf rest ih =>
    intro c
    obtain ⟨k, f⟩ := kf
    rw [diffGoWith, diffGoWith, h c k f]
    simp only [ih]

/-- C1 (counterexample): `diffSchema` does NOT implement the literal
priority matching over all schema pairs — with two from-fields sharing a
label, the label map retains only the later one, so a to-field whose
candidate was consumed is `added` (and the earlier unconsumed same-label
field `removed`) where the literal matching would pair them as a key
rename. -/
theorem diffSchema_matching_spec_counterexample :
    diffSchema
      [("a", { label := "L", type := .rich_text }),
       ("b", { label := "L", type := .rich_text })]
      [("b", { label := "L", type := .rich_text }),
       ("c", { label := "L", type := .rich_text })] ≠
    specDiffSchema
      [("a", { label := "L", type := .rich_text }),
       ("b", { label := "L", type := .rich_text })]
      [("b", { label := "L", type := .rich_text }),
       ("c", { label := "L", type := .rich_text })] := by
  decide

/-- C1 (amended): on from-schemas with pairwise-distinct keys, labels and
ids and at most one field per singleton type — the uniqueness a real remote
schema provides — `diffSchema` computes exactly the literal
priority-ordered matching of the spec: per `to` field in order, match by
shared id, else same key, else same label, else unconsumed singleton-type
(title) field, each from-field consumable once; unmatched `to` fields are
`added` and unconsumed `from` fields are `removed`. -/
theorem diffSchema_matching_eq_spec (fromSchema toSchema : Schema)
    (hk : (schemaKeys fromSchema).Nodup)
    (hl : (fromSchema.map (fun kf => kf.2.label)).Nodup)
    (hi : (schemaIds fromSchema).Nodup)
    (ht : ∀ t ∈ SINGLETON_TYPES,
      (fromSchema.filter (fun kf => kf.2.type == t)).length ≤ 1) :
    diffSchema fromSchema toSchema = specDiffSchema fromSchema toSchema := by
  unfold diffSchema specDiffSchema
  rw [diffGoWith_congr (findMatch_eq_specFindMatch hk hl hi ht) toSchema []]

/-- C1 (witness): the equivalence at the singleton-type fallback scenario
(`from = {nom: title('Nom', id title)}`, `to = {name: title('Title')}`). -/
theorem diffSchema_matching_eq_spec_witness :
    diffSchema [("nom", { label := "Nom", type := .title, id := some "title" })]
      [("name", { label := "Title", type := .title })] =
    specDiffSchema [("nom", { label := "Nom", type := .title, id := some "title" })]
      [("name", { label := "Title", type := .title })] :=
  diffSchema_matching_eq_spec
    [("nom", { label := "Nom", type := .title, id := some "title" })]
    [("name", { label := "Title", type := .title })]
    (by decide) (by decide) (by decide) (by decide)

end MatcherEquivalence

section RestoreExpressionLemmas

/-- `dropPrefix?` succeeds exactly on lists starting with the prefix and
returns the remainder. -/
theorem dropPrefix?_sound :
    ∀ (p cs rest : List Char), dropPrefix? p cs = some rest → cs = p ++ rest := by
  intro p
  induction p with
  | nil =>
    intro cs rest h
    simp only [dropPrefix?, Option.some.injEq] at h
    simpa using h
  | cons a as ih =>
    intro cs rest h
    cases cs with
    | nil => exact Option.noConfusion h
    | cons c cs' =>
      simp only [dropPrefix?] at h
      by_cases hca : c = a
      · rw [if_pos hca] at h
        subst hca
        simp [ih cs' rest h]
      · rw [if_neg hca] at h
        exact Option.noConfusion h

/-- A successful reference match decomposes its input as the rendered
reference followed by the remainder: the regex consumes exactly the slice
`{{notion:block_property:e:d:p}}` (braces escaped). -/
theorem tryMatchRef_sound {cs e d p rest : List Char}
    (h : tryMatchRef cs = some (e, d, p, rest)) :
    cs = renderChunk (Chunk.ref e d p) ++ rest := by
  unfold tryMatchRef at h
  split at h
  next => exact Option.noConfusion h
  next r0 hdp =>
    split at h
    next r2 hr2 =>
      split at h
      next r4 hr4 =>
        split at h
        next c1 c2 rest' hrest =>
          simp at h
          obtain ⟨-, -, -, ⟨hc1, hc2⟩, he, hd, hp, hrest'⟩ := h
          subst hc1; subst hc2; subst hrest'
          have hcs : cs = refPrefix ++ r0 := dropPrefix?_sound _ _ _ hdp
          simp only [decide_not] at hr2 hr4 hrest
          have e0 : r0 = e ++ ':' :: r2 := by
            rw [← he, ← hr2]
            exact (List.takeWhile_append_dropWhile _ r0).symm
          have d0 : r2 = d ++ ':' :: r4 := by
            rw [← hd, ← hr4]
            exact (List.takeWhile_append_dropWhile _ r2).symm
          have p0 : r4 = p ++ rbrace :: rbrace :: rest' := by
            rw [← hp, ← hrest]
            exact (List.takeWhile_append_dropWhile _ r4).symm
          rw [hcs, e0, d0, p0]
          simp [renderChunk]
        all_goals simp at h
      all_goals simp at h
    all_goals simp at h

/-- The replacement scan equals the per-chunk rewrite of the chunk
decomposition, at every fuel. -/
theorem restoreGo_eq_chunks (t : List Char) (m : List (String × String)) :
    ∀ (fuel : Nat) (cs : List Char),
      restoreGo t m fuel cs =
        ((parseChunksGo fuel cs).map (rewriteChunk t m)).flatten := by
  intro fuel
  induction fuel with
  | zero =>
    intro cs
    simp [restoreGo, parseChunksGo, rewriteChunk]
  | succ fuel ih =>
    intro cs
    cases htm : tryMatchRef cs with
    | some q =>
      obtain ⟨e, d, p, rest⟩ := q
      simp only [restoreGo, parseChunksGo, htm, List.map_cons, List.flatten_cons]
      rw [ih rest]
      rfl
    | none =>
      cases cs with
      | nil => simp [restoreGo, parseChunksGo, htm]
      | cons c rest =>
        simp only [restoreGo, parseChunksGo, htm, List.map_cons, List.flatten_cons]
        rw [ih rest]
        rfl

/-- Rendering the chunk decomposition gives back the input: the
decomposition loses nothing. -/
theorem parseChunksGo_render :
    ∀ (fuel : Nat) (cs : List Char),
      ((parseChunksGo fuel cs).map renderChunk).flatten = cs := by
  intro fuel
  induction fuel with
  | zero =>
    intro cs
    simp [parseChunksGo, renderChunk]
  | succ fuel ih =>
    intro cs
    cases htm : tryMatchRef cs with
    | some q =>
      obtain ⟨e, d, p, rest⟩ := q
      simp only [parseChunksGo, htm, List.map_cons, List.flatten_cons]
      rw [ih rest]
      exact (tryMatchRef_sound htm).symm
    | none =>
      cases cs with
      | nil => simp [parseChunksGo, htm]
      | cons c rest =>
        simp only [parseChunksGo, htm, List.map_cons, List.flatten_cons]
        rw [ih rest]
        rfl

/-- A chunk that is not a reference to the given table is rewritten to its
own rendering — kept byte-for-byte. -/
theorem rewriteChunk_of_not_refTo {t : List Char} {m : List (String × String)}
    {ch : Chunk} (h : Chunk.refTo t ch = false) :
    rewriteChunk t m ch = renderChunk ch := by
  cases ch with
  | lit cs => rfl
  | ref e d p =>
    simp only [Chunk.refTo, decide_eq_false_iff_not] at h
    simp only [rewriteChunk]
    rw [if_pos h]

/-- C7: `restoreExpression(expression, tableId, schema)` equals the
per-chunk rewrite of the left-to-right chunk decomposition of the
expression (literal text and embedded block-property references), a
decomposition that renders back to the expression byte-for-byte; the
per-reference rule rewrites a reference into `prop("key")` exactly when its
data source equals `tableId` and its encoded property id maps to the local
key `key` under the percent-encoded-id map of the schema, and keeps the
reference byte-for-byte when the data source differs or the id is unknown;
consequently an expression none of whose references target `tableId` is
returned unchanged. -/
theorem restoreExpression_spec (expression dataSourceId : String) (schema : Schema) :
    (restoreExpression expression dataSourceId schema =
      String.mk (((parseChunks expression).map
        (rewriteChunk dataSourceId.toList (encodedIdToKey schema))).flatten)) ∧
    (String.mk (((parseChunks expression).map renderChunk).flatten) = expression) ∧
    (∀ e d pg, d ≠ dataSourceId.toList →
      rewriteChunk dataSourceId.toList (encodedIdToKey schema) (Chunk.ref e d pg) =
        renderChunk (Chunk.ref e d pg)) ∧
    (∀ e d pg, mapGet (encodedIdToKey schema) (String.mk e) = none →
      rewriteChunk dataSourceId.toList (encodedIdToKey schema) (Chunk.ref e d pg) =
        renderChunk (Chunk.ref e d pg)) ∧
    (∀ e pg key, mapGet (encodedIdToKey schema) (String.mk e) = some key →
      rewriteChunk dataSourceId.toList (encodedIdToKey schema)
        (Chunk.ref e dataSourceId.toList pg) = propCall key) ∧
    ((∀ ch ∈ parseChunks expression, Chunk.refTo dataSourceId.toList ch = false) →
      restoreExpression expression dataSourceId schema = expression) := by
  refine ⟨?_, ?_, ?_, ?_, ?_, ?_⟩
  · unfold restoreExpression parseChunks
    rw [restoreGo_eq_chunks]
  · unfold parseChunks
    rw [parseChunksGo_render]
    rfl
  · intro e d pg hd
    exact rewriteChunk_of_not_refTo
      (by simp only [Chunk.refTo, decide_eq_false_iff_not]; exact hd)
  · intro e d pg hnone
    by_cases hd : d = dataSourceId.toList
    · subst hd
      simp [rewriteChunk, hnone]
    · exact rewriteChunk_of_not_refTo
        (by simp only [Chunk.refTo, decide_eq_false_iff_not]; exact hd)
  · intro e pg key hsome
    simp [rewriteChunk, hsome]
  · intro hall
    unfold parseChunks at hall
    unfold restoreExpression
    rw [restoreGo_eq_chunks]
    rw [List.map_congr_left (fun ch hch => rewriteChunk_of_not_refTo (hall ch hch))]
    rw [parseChunksGo_render]
    rfl

/-- C7 (witness): the theorem's unchanged-expression clause at the spec's
non-matching-table scenario — the reference targets table `T1`, the call is
made with `T2`, and the expression comes back unchanged. -/
theorem restoreExpression_spec_witness :
    restoreExpression "\x7b\x7bnotion:block_property:~%3Es~:T1:pg\x7d\x7d" "T2"
      [("quantity", { label := "Quantity", type := .number, id := some "~>s~" })] =
    "\x7b\x7bnotion:block_property:~%3Es~:T1:pg\x7d\x7d" :=
  (restoreExpression_spec "\x7b\x7bnotion:block_property:~%3Es~:T1:pg\x7d\x7d" "T2"
      [("quantity", { label := "Quantity", type := .number, id := some "~>s~" })]).2.2.2.2.2
    (by decide)

end RestoreExpressionLemmas

end Unbook
